import Mathlib

/-!
Verification of the crossword engine in `src/src/App.jsx` of the
`patheetrivia/cryptic` repository.

The grid is embedded as a flat row-major `List String` of one-character
cell strings, `"#"` marking a BLOCKED cell (this mirrors
`puzzle.grid.join("").split("")` in the source).  Out-of-range reads
return `""`, mirroring JavaScript `undefined` (which compares unequal
to `"#"`).  Entered-letter state is likewise a `List String` whose
entries are `"#"` (blocked), `""` (empty) or an uppercase letter.
-/

namespace Cryptic

/-! ### List helper lemmas -/

theorem getD_set_same (l : List String) (i : Nat) (v : String) (h : i < l.length) :
    (l.set i v).getD i "" = v := by
  simp [List.getD_eq_getElem?_getD, List.getElem?_set_self h]

theorem getD_set_other (l : List String) {i j : Nat} (v : String) (h : i ≠ j) :
    (l.set i v).getD j "" = l.getD j "" := by
  simp [List.getD_eq_getElem?_getD, List.getElem?_set_ne h]

/-- Overwriting an entry with the value it already holds is the identity,
also when the index is out of range (where `set` is a no-op). -/
theorem set_self_of_getD :
    ∀ (l : List String) (i : Nat) (v : String), l.getD i "" = v → l.set i v = l
  | [], _, _, _ => rfl
  | a :: l, 0, v, h => by
      simp [List.getD_cons_zero] at h
      simp [List.set, h]
  | a :: l, i + 1, v, h => by
      simp only [List.getD_cons_succ] at h
      simp [List.set, set_self_of_getD l i v h]

/-! ### Grid numbering (`buildNumbering` in src/src/App.jsx)

`isBlack(i)` is `grid[i] === '#'`; `startA`/`startD` are the PUZ-standard
run-start predicates computed for non-black cells (the `continue` on black
cells is folded into the predicates, which require the cell to be open). -/

/-- `grid[i] === '#'` of the source (`isBlack`). -/
def isBlackAt (grid : List String) (i : Nat) : Bool :=
  grid.getD i "" == "#"

/-- Across-start test of `buildNumbering`:
`(c === 0 || isBlack(i-1)) && (c + 1 < w && !isBlack(i+1))`, on an open cell. -/
def startA (grid : List String) (w : Nat) (i : Nat) : Bool :=
  !isBlackAt grid i &&
    ((i % w == 0) || isBlackAt grid (i - 1)) &&
    (decide (i % w + 1 < w) && !isBlackAt grid (i + 1))

/-- Down-start test of `buildNumbering`:
`(r === 0 || isBlack(i-w)) && (r + 1 < h && !isBlack(i+w))`, on an open cell. -/
def startD (grid : List String) (w h : Nat) (i : Nat) : Bool :=
  !isBlackAt grid i &&
    ((i / w == 0) || isBlackAt grid (i - w)) &&
    (decide (i / w + 1 < h) && !isBlackAt grid (i + w))

/-- A cell receives a number iff it starts a run in at least one direction. -/
def isStart (grid : List String) (w h : Nat) (i : Nat) : Bool :=
  startA grid w i || startD grid w h i

/-- The scan loop of `buildNumbering` assigning `numbers[i] = curNum++` at
every run-start cell, as a recursion over the remaining cell count. -/
def numbersFrom (grid : List String) (w h : Nat) : Nat → Nat → Nat → List (Option Nat)
  | 0, _, _ => []
  | fuel + 1, i, cur =>
    if isStart grid w h i then some cur :: numbersFrom grid w h fuel (i + 1) (cur + 1)
    else none :: numbersFrom grid w h fuel (i + 1) cur

/-- The `numbers` array of `buildNumbering`. -/
def numbers (grid : List String) (w h : Nat) : List (Option Nat) :=
  numbersFrom grid w h (w * h) 0 1

theorem numbersFrom_getD (grid : List String) (w h : Nat) :
    ∀ (fuel : Nat) (i cur k : Nat), k < fuel →
      (numbersFrom grid w h fuel i cur).getD k none =
        (if isStart grid w h (i + k) then
          some (cur + (List.range k).countP (fun t => isStart grid w h (i + t)))
        else none) := by
  intro fuel
  induction fuel with
  | zero => intro i cur k hk; omega
  | succ f ih =>
    intro i cur k hk
    match k with
    | 0 =>
      simp only [numbersFrom, List.range_zero, List.countP_nil, Nat.add_zero]
      by_cases hs : isStart grid w h i
      · simp [hs]
      · simp [hs]
    | k + 1 =>
      have hk' : k < f := by omega
      have hshift : ∀ cur', (numbersFrom grid w h f (i + 1) cur').getD k none =
          (if isStart grid w h (i + (k + 1)) then
            some (cur' + (List.range k).countP (fun t => isStart grid w h (i + 1 + t)))
          else none) := by
        intro cur'
        have := ih (i + 1) cur' k hk'
        have harg : i + 1 + k = i + (k + 1) := by omega
        rw [harg] at this
        exact this
      have hcount : (List.range (k + 1)).countP (fun t => isStart grid w h (i + t)) =
          (if isStart grid w h i then 1 else 0) +
            (List.range k).countP (fun t => isStart grid w h (i + 1 + t)) := by
        rw [List.range_succ_eq_map, List.countP_cons, List.countP_map]
        have he : ((fun t => isStart grid w h (i + t)) ∘ Nat.succ) =
            (fun t => isStart grid w h (i + 1 + t)) := by
          funext t
          show isStart grid w h (i + (t + 1)) = isStart grid w h (i + 1 + t)
          have harg : i + (t + 1) = i + 1 + t := by omega
          rw [harg]
        rw [he]
        by_cases hs : isStart grid w h i
        · simp [hs, Nat.add_comm]
        · simp [hs]
      cases hs : isStart grid w h i with
      | false =>
        have hunf : numbersFrom grid w h (f + 1) i cur =
            none :: numbersFrom grid w h f (i + 1) cur := by
          simp [numbersFrom, hs]
        have hcount0 : (List.range (k + 1)).countP (fun t => isStart grid w h (i + t)) =
            (List.range k).countP (fun t => isStart grid w h (i + 1 + t)) := by
          rw [hcount, hs]; simp
        rw [hunf, List.getD_cons_succ, hshift cur, hcount0]
      | true =>
        have hunf : numbersFrom grid w h (f + 1) i cur =
            some cur :: numbersFrom grid w h f (i + 1) (cur + 1) := by
          simp [numbersFrom, hs]
        have hcount1 : (List.range (k + 1)).countP (fun t => isStart grid w h (i + t)) =
            1 + (List.range k).countP (fun t => isStart grid w h (i + 1 + t)) := by
          rw [hcount, hs]; simp
        rw [hunf, List.getD_cons_succ, hshift (cur + 1), hcount1]
        by_cases hs2 : isStart grid w h (i + (k + 1))
        · rw [if_pos hs2, if_pos hs2]
          congr 1
          omega
        · rw [if_neg hs2, if_neg hs2]

/-- Characterization of the `numbers` array: a cell gets a number iff it is a
run start, and the number is `1 +` the count of earlier run starts. -/
theorem numbers_getD (grid : List String) (w h : Nat) (k : Nat) (hk : k < w * h) :
    (numbers grid w h).getD k none =
      (if isStart grid w h k then
        some (1 + (List.range k).countP (fun t => isStart grid w h t))
      else none) := by
  have := numbersFrom_getD grid w h (w * h) 0 1 k hk
  simpa [numbers, Nat.add_comm] using this

theorem numbersFrom_length (grid : List String) (w h : Nat) :
    ∀ (fuel i cur : Nat), (numbersFrom grid w h fuel i cur).length = fuel := by
  intro fuel
  induction fuel with
  | zero => intro i cur; rfl
  | succ f ih =>
    intro i cur
    by_cases hs : isStart grid w h i <;> simp [numbersFrom, hs, ih]

theorem numbers_length (grid : List String) (w h : Nat) :
    (numbers grid w h).length = w * h :=
  numbersFrom_length grid w h (w * h) 0 1

theorem countP_range_le (p : Nat → Bool) {m n : Nat} (h : m ≤ n) :
    (List.range m).countP p ≤ (List.range n).countP p := by
  induction n with
  | zero =>
    have : m = 0 := by omega
    subst this; exact Nat.le_refl _
  | succ n ih =>
    rcases Nat.lt_or_ge m (n + 1) with hlt | hge
    · have hm : m ≤ n := by omega
      calc (List.range m).countP p ≤ (List.range n).countP p := ih hm
        _ ≤ (List.range (n + 1)).countP p := by
            rw [List.range_succ, List.countP_append]; omega
    · have : m = n + 1 := by omega
      subst this; exact Nat.le_refl _

theorem countP_range_lt (p : Nat → Bool) {m n : Nat} (h : m < n) (hp : p m = true) :
    (List.range m).countP p < (List.range n).countP p := by
  have h1 : (List.range (m + 1)).countP p = (List.range m).countP p + 1 := by
    rw [List.range_succ, List.countP_append]
    simp [List.countP_cons, hp]
  have h2 : (List.range (m + 1)).countP p ≤ (List.range n).countP p :=
    countP_range_le p (by omega)
  omega

/-- Run-start predicate spelled out as the claim states it. -/
theorem isStart_iff (grid : List String) (w h : Nat) (i : Nat) :
    isStart grid w h i = true ↔
      (grid.getD i "" ≠ "#" ∧
        (((i % w = 0 ∨ grid.getD (i - 1) "" = "#") ∧ i % w + 1 < w ∧ grid.getD (i + 1) "" ≠ "#") ∨
         ((i / w = 0 ∨ grid.getD (i - w) "" = "#") ∧ i / w + 1 < h ∧ grid.getD (i + w) "" ≠ "#"))) := by
  simp only [isStart, startA, startD, isBlackAt, Bool.or_eq_true, Bool.and_eq_true,
    Bool.not_eq_true', beq_iff_eq, beq_eq_false_iff_ne, decide_eq_true_eq, ne_eq]
  tauto

theorem numbers_isSome_iff (grid : List String) (w h : Nat) (i : Nat) (hi : i < w * h) :
    ((numbers grid w h).getD i none).isSome = true ↔ isStart grid w h i = true := by
  rw [numbers_getD grid w h i hi]
  by_cases hs : isStart grid w h i <;> simp [hs]

theorem numbers_lt_of_lt (grid : List String) (w h : Nat) {i j a b : Nat}
    (hij : i < j) (hj : j < w * h)
    (ha : (numbers grid w h).getD i none = some a)
    (hb : (numbers grid w h).getD j none = some b) : a < b := by
  have hi : i < w * h := Nat.lt_trans hij hj
  rw [numbers_getD grid w h i hi] at ha
  rw [numbers_getD grid w h j hj] at hb
  by_cases hsi : isStart grid w h i
  · by_cases hsj : isStart grid w h j
    · rw [if_pos hsi] at ha
      rw [if_pos hsj] at hb
      have ha' := Option.some.inj ha
      have hb' := Option.some.inj hb
      have hcnt := countP_range_lt (fun t => isStart grid w h t) hij hsi
      omega
    · rw [if_neg hsj] at hb; exact absurd hb (by simp)
  · rw [if_neg hsi] at ha; exact absurd ha (by simp)

/-- **C1.** For every layout of width `w` and height `h`, `buildNumbering`
gives a number to exactly those OPEN cells where, for at least one direction,
the neighbour immediately before is off-grid or BLOCKED and the neighbour
immediately after is in-grid and OPEN; the first numbered cell in row-major
scan order gets 1, all numbers are at least 1, numbers strictly increase in
scan order, and no two distinct numbered cells share a number (a cell that
starts runs in both directions holds a single entry of the `numbers` array,
hence exactly one number). -/
theorem c1_computeNumbering (grid : List String) (w h : Nat) :
    (∀ i, i < w * h →
      (((numbers grid w h).getD i none).isSome = true ↔
        (grid.getD i "" ≠ "#" ∧
          (((i % w = 0 ∨ grid.getD (i - 1) "" = "#") ∧ i % w + 1 < w ∧ grid.getD (i + 1) "" ≠ "#") ∨
           ((i / w = 0 ∨ grid.getD (i - w) "" = "#") ∧ i / w + 1 < h ∧ grid.getD (i + w) "" ≠ "#")))))
    ∧ (∀ i a, i < w * h → (numbers grid w h).getD i none = some a → 1 ≤ a)
    ∧ (∀ i, i < w * h → ((numbers grid w h).getD i none).isSome = true →
        (∀ j, j < i → (numbers grid w h).getD j none = none) →
        (numbers grid w h).getD i none = some 1)
    ∧ (∀ i j a b, i < j → j < w * h →
        (numbers grid w h).getD i none = some a →
        (numbers grid w h).getD j none = some b → a < b)
    ∧ (∀ i j a b, i < w * h → j < w * h → i ≠ j →
        (numbers grid w h).getD i none = some a →
        (numbers grid w h).getD j none = some b → a ≠ b) := by
  refine ⟨?_, ?_, ?_, ?_, ?_⟩
  · intro i hi
    rw [numbers_isSome_iff grid w h i hi, isStart_iff grid w h i]
  · intro i a hi ha
    rw [numbers_getD grid w h i hi] at ha
    by_cases hs : isStart grid w h i
    · rw [if_pos hs] at ha
      have := Option.some.inj ha
      omega
    · rw [if_neg hs] at ha; exact absurd ha (by simp)
  · intro i hi hsome hnone
    have hs : isStart grid w h i = true := (numbers_isSome_iff grid w h i hi).mp hsome
    rw [numbers_getD grid w h i hi, if_pos hs]
    have hcnt : (List.range i).countP (fun t => isStart grid w h t) = 0 := by
      rw [List.countP_eq_zero]
      intro j hj
      have hji : j < i := List.mem_range.mp hj
      have hjw : j < w * h := Nat.lt_trans hji hi
      have hnj := hnone j hji
      rw [numbers_getD grid w h j hjw] at hnj
      by_cases hsj : isStart grid w h j
      · rw [if_pos hsj] at hnj; exact absurd hnj (by simp)
      · simpa using hsj
    rw [hcnt]
  · intro i j a b hij hj ha hb
    exact numbers_lt_of_lt grid w h hij hj ha hb
  · intro i j a b hi hj hne ha hb
    rcases Nat.lt_or_ge i j with hlt | hge
    · exact Nat.ne_of_lt (numbers_lt_of_lt grid w h hlt hj ha hb)
    · have hlt : j < i := by omega
      exact (Nat.ne_of_lt (numbers_lt_of_lt grid w h hlt hi hb ha)).symm

/-- Witness for C1 on the 1×3 layout `A B #`: cell 0 starts the only run and
receives number 1, obtained by applying the theorem with every hypothesis
discharged at concrete inputs. -/
theorem c1_computeNumbering_witness :
    (numbers ["A", "B", "#"] 3 1).getD 0 none = some 1 :=
  (c1_computeNumbering ["A", "B", "#"] 3 1).2.2.1 0 (by decide) (by decide)
    (fun j hj => absurd hj (Nat.not_lt_zero j))

/-! ### Run maps of `buildNumbering`

`mapAcross`/`mapDown` are insertion-ordered maps number → run cells; the
while-loops collecting a run are bounded recursions over the remaining
columns/rows. -/

/-- `while (cc < w && !isBlack(r*w+cc)) { run.push(r*w+cc); cc++; }` -/
def collectA (grid : List String) (w r : Nat) : Nat → Nat → List Nat
  | _, 0 => []
  | cc, fuel + 1 =>
    if cc < w ∧ ¬ isBlackAt grid (r * w + cc) then
      (r * w + cc) :: collectA grid w r (cc + 1) fuel
    else []

/-- `while (rr < h && !isBlack(rr*w+c)) { run.push(rr*w+c); rr++; }` -/
def collectD (grid : List String) (w h c : Nat) : Nat → Nat → List Nat
  | _, 0 => []
  | rr, fuel + 1 =>
    if rr < h ∧ ¬ isBlackAt grid (rr * w + c) then
      (rr * w + c) :: collectD grid w h c (rr + 1) fuel
    else []

/-- `mapAcross` of `buildNumbering`: one entry per across-start cell, in scan
order, keyed by the number just assigned to that cell. -/
def mapAcross (grid : List String) (w h : Nat) : List (Nat × List Nat) :=
  (List.range (w * h)).filterMap fun i =>
    if startA grid w i then
      some (((numbers grid w h).getD i none).getD 0, collectA grid w (i / w) (i % w) w)
    else none

/-- `mapDown` of `buildNumbering`. -/
def mapDown (grid : List String) (w h : Nat) : List (Nat × List Nat) :=
  (List.range (w * h)).filterMap fun i =>
    if startD grid w h i then
      some (((numbers grid w h).getD i none).getD 0, collectD grid w h (i % w) (i / w) h)
    else none

/-! ### Crossword engine (`useCrossword` in src/src/App.jsx) -/

/-- Solving direction. -/
inductive Dir where
  | across
  | down
deriving DecidableEq, Repr

def Dir.toggle : Dir → Dir
  | Dir.across => Dir.down
  | Dir.down => Dir.across

/-- Mutable solving state: entered cells, direction, focused cell. -/
structure EngState where
  cells : List String
  dir : Dir
  focus : Option Nat
deriving DecidableEq, Repr

section Engine

variable (W H : Nat) (flatGrid : List String) (flatSol : Option (List String))

/-- `while (cc > 0 && flatGrid[r*W + (cc-1)] !== '#') cc--` of `startIndexOf`. -/
def backA (flatGrid : List String) (W r : Nat) : Nat → Nat
  | 0 => 0
  | cc + 1 => if ¬ isBlackAt flatGrid (r * W + cc) then backA flatGrid W r cc else cc + 1

/-- `while (rr > 0 && flatGrid[(rr-1)*W + c] !== '#') rr--` of `startIndexOf`. -/
def backD (flatGrid : List String) (W c : Nat) : Nat → Nat
  | 0 => 0
  | rr + 1 => if ¬ isBlackAt flatGrid (rr * W + c) then backD flatGrid W c rr else rr + 1

/-- `startIndexOf(i, dir)`: walk backward from `i` to the start of its run. -/
def startIndexOf (i : Nat) (dir : Dir) : Nat :=
  match dir with
  | Dir.across => i / W * W + backA flatGrid W (i / W) (i % W)
  | Dir.down => backD flatGrid W (i % W) (i / W) * W + i % W

/-- `runAt(i, dir)`: the run that contains `i`, looked up through the number
on the run's start cell (`if (!n) return []` also catches a zero number). -/
def runAt (i : Nat) (dir : Dir) : List Nat :=
  let start := startIndexOf W flatGrid i dir
  match (numbers flatGrid W H).getD start none with
  | none => []
  | some n =>
    if n = 0 then []
    else
      match dir with
      | Dir.across => (List.lookup n (mapAcross flatGrid W H)).getD []
      | Dir.down => (List.lookup n (mapDown flatGrid W H)).getD []

/-- JavaScript `Array.prototype.indexOf`: `-1` when absent. -/
def jsIndexOf (l : List Nat) (a : Nat) : Int :=
  if a ∈ l then (l.indexOf a : Int) else -1

/-- The do-while loop of `step`: `do { j += delta } while (j >= 0 && j < W*H
&& flatGrid[j] === '#')`, with enough fuel to cover every terminating run. -/
def stepLoop (flatGrid : List String) (WH : Nat) (delta : Int) : Nat → Int → Int
  | 0, j => j + delta
  | fuel + 1, j =>
    if 0 ≤ j + delta ∧ j + delta < (WH : Int) ∧ isBlackAt flatGrid (j + delta).toNat then
      stepLoop flatGrid WH delta fuel (j + delta)
    else j + delta

/-- `step(i, delta)` of the source: advance by `delta`, skipping over black
cells, and fall back to `i` when the loop ran off the grid. -/
def step (i : Nat) (delta : Int) : Nat :=
  let j := stepLoop flatGrid (W * H) delta (W * H + 1) (i : Int)
  if 0 ≤ j ∧ j < ((W * H : Nat) : Int) then j.toNat else i

/-- Body of `jumpToNextRun(forward)` once the direction's map has been
selected: `nums` is the ascending sort of the map's keys;
`numbering.numbers[focus ?? 0]` — the number stored *at the focused cell* —
selects between the jump-to-first fallback (`!curNum`) and the
wrap-around index step.  (The source binds `nums` once; the translation
repeats the sort expression instead of a local.) -/
def jumpCore (flatGrid : List String) (W H : Nat) (forward : Bool)
    (m : List (Nat × List Nat)) (st : EngState) : EngState :=
  if (List.insertionSort (· ≤ ·) (m.map Prod.fst)).isEmpty then st
  else
    match (numbers flatGrid W H).getD (st.focus.getD 0) none with
    | none =>
      { st with focus := some (((List.lookup
          ((List.insertionSort (· ≤ ·) (m.map Prod.fst)).headD 0) m).getD []).headD 0) }
    | some cur =>
      if cur = 0 then
        { st with focus := some (((List.lookup
            ((List.insertionSort (· ≤ ·) (m.map Prod.fst)).headD 0) m).getD []).headD 0) }
      else
        { st with focus := some (((List.lookup
            ((List.insertionSort (· ≤ ·) (m.map Prod.fst)).getD
              (Int.toNat ((jsIndexOf (List.insertionSort (· ≤ ·) (m.map Prod.fst)) cur +
                  (if forward then 1 else -1) +
                  ((List.insertionSort (· ≤ ·) (m.map Prod.fst)).length : Int)) %
                ((List.insertionSort (· ≤ ·) (m.map Prod.fst)).length : Int))) 0) m).getD
            []).headD 0) }

/-- `jumpToNextRun(forward)` of the source. -/
def jumpToNextRun (forward : Bool) (st : EngState) : EngState :=
  jumpCore flatGrid W H forward
    (match st.dir with
     | Dir.across => mapAcross flatGrid W H
     | Dir.down => mapDown flatGrid W H) st

/-- `/^[a-zA-Z]$/.test(key)` -/
def isAlphaKey (key : String) : Bool :=
  key.length == 1 && key.data.all Char.isAlpha

/-- `key.toUpperCase()` on the single-ASCII-letter keys this handler accepts. -/
def jsToUpper (s : String) : String :=
  ⟨s.data.map Char.toUpper⟩

/-- `key.startsWith("Arrow")`, expressed over the character data. -/
def startsWithArrow (key : String) : Bool :=
  List.isPrefixOf "Arrow".data key.data

/-- The `handled` guard of `handleKey`. -/
def handledKey (key : String) : Bool :=
  key == " " || key == "Tab" || key == "Enter" || key == "Backspace" || key == "Delete" ||
    startsWithArrow key || isAlphaKey key

/-- `handleKey` of the source, as a state transformer.  Tab/Enter queue a
`jumpToNextRun` whose focus update lands after the (unchanged) focus returned
by the outer updater, so their net effect is `jumpToNextRun` on the incoming
state. -/
def handleKey (key : String) (shiftKey : Bool) (st : EngState) : EngState :=
  if ¬ handledKey key then st
  else
    match st.focus with
    | none => st
    | some f =>
      let run := runAt W H flatGrid f st.dir
      if startsWithArrow key then
        let dir2 := if key == "ArrowUp" || key == "ArrowDown" then Dir.down else Dir.across
        let delta : Int :=
          if key == "ArrowLeft" then -1
          else if key == "ArrowRight" then 1
          else if key == "ArrowUp" then -(W : Int)
          else if key == "ArrowDown" then (W : Int)
          else 0
        let target : Int := (f : Int) + delta
        if target < 0 ∨ ((W * H : Nat) : Int) ≤ target ∨ isBlackAt flatGrid target.toNat then
          { st with dir := dir2 }
        else { st with dir := dir2, focus := some target.toNat }
      else if key == " " then { st with dir := st.dir.toggle }
      else if key == "Tab" then jumpToNextRun W H flatGrid (!shiftKey) st
      else if key == "Enter" then jumpToNextRun W H flatGrid true st
      else if key == "Backspace" || key == "Delete" then
        let pos : Int := jsIndexOf run f
        let back : Option Nat := run.get? (Int.toNat (max 0 (pos - 1)))
        let cells2 :=
          if st.cells.getD f "" ≠ "" ∧ st.cells.getD f "" ≠ "#" then st.cells.set f ""
          else
            match back with
            | some b => st.cells.set b ""
            | none => st.cells
        { st with cells := cells2, focus := some (back.getD f) }
      else
        let cells2 :=
          if st.cells.getD f "" == "#" then st.cells
          else st.cells.set f (jsToUpper key)
        let pos : Int := jsIndexOf run f
        let nxt : Option Nat := run.get? (Int.toNat (pos + 1))
        { st with cells := cells2, focus := some (nxt.getD f) }

/-- Body of the `checkCurrent` scope loop:
`if (flatGrid[i] === '#') continue; if (next[i] && next[i] !== flatSol[i]) next[i] = ''`. -/
def checkStep (flatGrid sol : List String) (acc : List String) (i : Nat) : List String :=
  if isBlackAt flatGrid i then acc
  else if acc.getD i "" ≠ "" ∧ acc.getD i "" ≠ sol.getD i "" then acc.set i ""
  else acc

/-- Body of the `revealCurrent` scope loop:
`if (flatGrid[i] === '#') continue; next[i] = flatSol[i]`. -/
def revealStep (flatGrid sol : List String) (acc : List String) (i : Nat) : List String :=
  if isBlackAt flatGrid i then acc
  else acc.set i (sol.getD i "")

/-- The scope of a check/reveal:
`runOnly ? (focus == null ? [] : runAt(focus, dir)) : prev.map((_, i) => i)`. -/
def scopeOf (runOnly : Bool) (st : EngState) : List Nat :=
  if runOnly then
    (match st.focus with
     | none => []
     | some f => runAt W H flatGrid f st.dir)
  else List.range st.cells.length

/-- `checkCurrent(runOnly)` of the source. -/
def checkCurrent (runOnly : Bool) (st : EngState) : EngState :=
  match flatSol with
  | none => st
  | some sol =>
    if (scopeOf W H flatGrid runOnly st).isEmpty then st
    else { st with cells := (scopeOf W H flatGrid runOnly st).foldl (checkStep flatGrid sol) st.cells }

/-- `revealCurrent(runOnly)` of the source. -/
def revealCurrent (runOnly : Bool) (st : EngState) : EngState :=
  match flatSol with
  | none => st
  | some sol =>
    if (scopeOf W H flatGrid runOnly st).isEmpty then st
    else { st with cells := (scopeOf W H flatGrid runOnly st).foldl (revealStep flatGrid sol) st.cells }

/-- `clearAll()` of the source. -/
def clearAll (st : EngState) : EngState :=
  { st with cells := st.cells.mapIdx fun i _ => if isBlackAt flatGrid i then "#" else "" }

/-- `isComplete` of the source: false without a solution, else every open
cell must match the solution letter. -/
def isComplete (cells : List String) : Bool :=
  match flatSol with
  | none => false
  | some sol =>
    (List.range (W * H)).all fun i =>
      isBlackAt flatGrid i || (cells.getD i "" == sol.getD i "")

end Engine

/-! ### Structural facts about runs and letters -/

theorem mem_of_lookup_eq_some {l : List (Nat × List Nat)} {n : Nat} {r : List Nat}
    (h : List.lookup n l = some r) : (n, r) ∈ l := by
  induction l with
  | nil => simp [List.lookup] at h
  | cons a l ih =>
    rw [List.lookup] at h
    cases he : (n == a.1) with
    | true =>
      rw [he] at h
      simp only [] at h
      have h2 : n = a.1 := beq_iff_eq.mp he
      have h3 : a.2 = r := Option.some.inj h
      have h4 : a = (n, r) := by cases a; simp_all
      rw [h4]
      exact List.mem_cons_self _ _
    | false =>
      rw [he] at h
      simp only [] at h
      exact List.mem_cons_of_mem a (ih h)

theorem mem_collectA_open (grid : List String) (w r : Nat) :
    ∀ (fuel cc j : Nat), j ∈ collectA grid w r cc fuel → isBlackAt grid j = false := by
  intro fuel
  induction fuel with
  | zero => intro cc j hj; simp [collectA] at hj
  | succ f ih =>
    intro cc j hj
    rw [collectA] at hj
    by_cases hc : cc < w ∧ ¬ isBlackAt grid (r * w + cc)
    · rw [if_pos hc] at hj
      rcases List.mem_cons.mp hj with he | hm
      · subst he; simpa using hc.2
      · exact ih (cc + 1) j hm
    · rw [if_neg hc] at hj; simp at hj

theorem mem_collectD_open (grid : List String) (w h c : Nat) :
    ∀ (fuel rr j : Nat), j ∈ collectD grid w h c rr fuel → isBlackAt grid j = false := by
  intro fuel
  induction fuel with
  | zero => intro rr j hj; simp [collectD] at hj
  | succ f ih =>
    intro rr j hj
    rw [collectD] at hj
    by_cases hc : rr < h ∧ ¬ isBlackAt grid (rr * w + c)
    · rw [if_pos hc] at hj
      rcases List.mem_cons.mp hj with he | hm
      · subst he; simpa using hc.2
      · exact ih (rr + 1) j hm
    · rw [if_neg hc] at hj; simp at hj

theorem lookup_mapAcross_eq (grid : List String) (w h : Nat) {n : Nat} {run : List Nat}
    (hl : List.lookup n (mapAcross grid w h) = some run) :
    ∃ i, startA grid w i = true ∧ run = collectA grid w (i / w) (i % w) w := by
  have hm := mem_of_lookup_eq_some hl
  rw [mapAcross] at hm
  rcases List.mem_filterMap.mp hm with ⟨i, _, hfi⟩
  refine ⟨i, ?_, ?_⟩
  · by_cases hs : startA grid w i
    · exact hs
    · rw [if_neg hs] at hfi; simp at hfi
  · by_cases hs : startA grid w i
    · rw [if_pos hs] at hfi
      have := Option.some.inj hfi
      exact (congrArg Prod.snd this).symm
    · rw [if_neg hs] at hfi; simp at hfi

theorem lookup_mapDown_eq (grid : List String) (w h : Nat) {n : Nat} {run : List Nat}
    (hl : List.lookup n (mapDown grid w h) = some run) :
    ∃ i, startD grid w h i = true ∧ run = collectD grid w h (i % w) (i / w) h := by
  have hm := mem_of_lookup_eq_some hl
  rw [mapDown] at hm
  rcases List.mem_filterMap.mp hm with ⟨i, _, hfi⟩
  refine ⟨i, ?_, ?_⟩
  · by_cases hs : startD grid w h i
    · exact hs
    · rw [if_neg hs] at hfi; simp at hfi
  · by_cases hs : startD grid w h i
    · rw [if_pos hs] at hfi
      have := Option.some.inj hfi
      exact (congrArg Prod.snd this).symm
    · rw [if_neg hs] at hfi; simp at hfi

/-- Every cell of a `runAt` run is OPEN in the layout. -/
theorem mem_runAt_open (W H : Nat) (flatGrid : List String) (i : Nat) (d : Dir) :
    ∀ j ∈ runAt W H flatGrid i d, isBlackAt flatGrid j = false := by
  intro j hj
  rw [runAt] at hj
  cases hnum : (numbers flatGrid W H).getD (startIndexOf W flatGrid i d) none with
  | none => rw [hnum] at hj; simp at hj
  | some n =>
    rw [hnum] at hj
    simp only [] at hj
    by_cases hn : n = 0
    · rw [if_pos hn] at hj; simp at hj
    · rw [if_neg hn] at hj
      cases d with
      | across =>
        simp only [] at hj
        cases hl : List.lookup n (mapAcross flatGrid W H) with
        | none => rw [hl] at hj; simp at hj
        | some run =>
          rw [hl] at hj
          simp only [Option.getD_some] at hj
          rcases lookup_mapAcross_eq flatGrid W H hl with ⟨s, _, hrun⟩
          rw [hrun] at hj
          exact mem_collectA_open flatGrid W (s / W) W (s % W) j hj
      | down =>
        simp only [] at hj
        cases hl : List.lookup n (mapDown flatGrid W H) with
        | none => rw [hl] at hj; simp at hj
        | some run =>
          rw [hl] at hj
          simp only [Option.getD_some] at hj
          rcases lookup_mapDown_eq flatGrid W H hl with ⟨s, _, hrun⟩
          rw [hrun] at hj
          exact mem_collectD_open flatGrid W H (s % W) H (s / W) j hj

/-- Uppercasing an ASCII letter never produces `'#'`. -/
theorem toUpper_ne_hash (c : Char) (hc : c.isAlpha = true) : c.toUpper ≠ '#' := by
  have hval : (65 ≤ c.toNat ∧ c.toNat ≤ 90) ∨ (97 ≤ c.toNat ∧ c.toNat ≤ 122) := by
    simp [Char.isAlpha, Char.isUpper, Char.isLower] at hc
    obtain ⟨h1, h2⟩ | ⟨h1, h2⟩ := hc
    · left; constructor <;> exact_mod_cast ‹_›
    · right; constructor <;> exact_mod_cast ‹_›
  unfold Char.toUpper
  simp only []
  rcases hval with ⟨h1, h2⟩ | ⟨h1, h2⟩
  · rw [if_neg (by omega)]
    intro h
    have h35 : c.toNat = 35 := by rw [h]; decide
    omega
  · rw [if_pos (by omega)]
    set t := c.toNat with ht
    interval_cases t <;> decide

/-- The uppercased form of a single-letter key is never the BLOCKED marker. -/
theorem jsToUpper_ne_hash (key : String) (hk : isAlphaKey key = true) :
    jsToUpper key ≠ "#" := by
  simp only [isAlphaKey, Bool.and_eq_true, beq_iff_eq, List.all_eq_true] at hk
  obtain ⟨hlen, hall⟩ := hk
  have hlen' : key.data.length = 1 := hlen
  match hd : key.data, hlen' with
  | [c], _ =>
    have hc : c.isAlpha = true := by
      apply hall
      rw [hd]
      exact List.mem_cons_self _ _
    intro h
    have hdata : (jsToUpper key).data = ['#'] := by rw [h]
    rw [jsToUpper] at hdata
    simp only [hd] at hdata
    have : c.toUpper = '#' := by
      have := List.head_eq_of_cons_eq hdata
      exact this
    exact toUpper_ne_hash c hc this

/-! ### C8: `step` (`stepThroughRun`) -/

theorem stepLoop_spec (flatGrid : List String) (WH : Nat) (delta : Int) :
    ∀ (fuel : Nat) (j : Int) (n : Nat), 1 ≤ n → n ≤ fuel + 1 →
      (∀ m : Nat, 1 ≤ m → m < n →
        (0 ≤ j + (m : Int) * delta ∧ j + (m : Int) * delta < (WH : Int) ∧
          isBlackAt flatGrid (j + (m : Int) * delta).toNat = true)) →
      ¬ (0 ≤ j + (n : Int) * delta ∧ j + (n : Int) * delta < (WH : Int) ∧
          isBlackAt flatGrid (j + (n : Int) * delta).toNat = true) →
      stepLoop flatGrid WH delta fuel j = j + (n : Int) * delta := by
  intro fuel
  induction fuel with
  | zero =>
    intro j n h1 h2 _ _
    have hn : n = 1 := by omega
    subst hn
    show j + delta = j + ((1 : Nat) : Int) * delta
    push_cast
    ring
  | succ fl ih =>
    intro j n h1 h2 hcont hstop
    rcases Nat.eq_or_lt_of_le h1 with he | hgt
    · -- n = 1: the first condition check fails and the loop stops at j + delta
      have hn : n = 1 := he.symm
      subst hn
      have hstop' : ¬ (0 ≤ j + delta ∧ j + delta < (WH : Int) ∧
          isBlackAt flatGrid (j + delta).toNat = true) := by
        have harg : j + ((1 : Nat) : Int) * delta = j + delta := by push_cast; ring
        rw [harg] at hstop
        exact hstop
      rw [stepLoop, if_neg hstop']
      push_cast
      ring
    · -- n ≥ 2: the condition at j + delta holds, recurse
      have hc1 := hcont 1 (by omega) (by omega)
      have harg : j + ((1 : Nat) : Int) * delta = j + delta := by push_cast; ring
      rw [harg] at hc1
      rw [stepLoop, if_pos hc1]
      have hres := ih (j + delta) (n - 1) (by omega) (by omega)
        (fun m hm1 hm2 => by
          have := hcont (m + 1) (by omega) (by omega)
          have harg2 : j + ((m + 1 : Nat) : Int) * delta = j + delta + (m : Int) * delta := by
            push_cast; ring
          rw [harg2] at this
          exact this)
        (by
          have harg3 : j + ((n : Nat) : Int) * delta = j + delta + ((n - 1 : Nat) : Int) * delta := by
            have hcast : ((n - 1 : Nat) : Int) = (n : Int) - 1 := by
              have : (1 : Nat) ≤ n := h1
              push_cast [this]
              ring
            rw [hcast]
            ring
          rw [harg3] at hstop
          exact hstop)
      rw [hres]
      have hcast : ((n - 1 : Nat) : Int) = (n : Int) - 1 := by
        have : (1 : Nat) ≤ n := h1
        push_cast [this]
        ring
      rw [hcast]
      ring

theorem stepExit_exists (flatGrid : List String) (WH : Nat) (delta : Int) (hd : delta ≠ 0)
    (i : Nat) :
    ∃ n : Nat, 1 ≤ n ∧ n ≤ WH + 1 ∧
      ¬ (0 ≤ (i : Int) + (n : Int) * delta ∧ (i : Int) + (n : Int) * delta < (WH : Int) ∧
          isBlackAt flatGrid ((i : Int) + (n : Int) * delta).toNat = true) := by
  by_contra hno
  push_neg at hno
  have h1 := hno 1 (by omega) (by omega)
  have h2 := hno (WH + 1) (by omega) (by omega)
  obtain ⟨a1, b1, -⟩ := h1
  obtain ⟨a2, b2, -⟩ := h2
  have hx : ((i : Int) + ((WH + 1 : Nat) : Int) * delta) -
      ((i : Int) + ((1 : Nat) : Int) * delta) = (WH : Int) * delta := by
    push_cast; ring
  have habs1 : |(WH : Int) * delta| < (WH : Int) := by
    rw [← hx]
    rw [abs_lt]
    constructor <;> linarith
  have habs2 : (WH : Int) ≤ |(WH : Int) * delta| := by
    rw [abs_mul]
    have h3 : (1 : Int) ≤ |delta| := Int.one_le_abs hd
    have h4 : |(WH : Int)| = (WH : Int) := abs_of_nonneg (by positivity)
    rw [h4]
    nlinarith [Nat.cast_nonneg (α := ℤ) WH]
  linarith

/-- **C8 counterexample.** On the 1×5 grid `A B # C D`, `step(1, 1)` returns 3:
the stepped-to cell 2 is BLOCKED, and instead of returning the original index
1 unchanged as the claim states, the loop skips over the BLOCKED cell. -/
theorem c8_stepThroughRun_counterexample :
    step 5 1 ["A", "B", "#", "C", "D"] 1 1 = 3 ∧
      step 5 1 ["A", "B", "#", "C", "D"] 1 1 ≠ 1 := by
  decide

/-- **C8 amended.** `step(from, delta)` with `delta ≠ 0` advances through the
arithmetic progression `from + delta, from + 2*delta, …`, skipping over
in-range BLOCKED cells: there is an `n ≥ 1` such that every strictly earlier
step lands on an in-range BLOCKED cell and the `n`-th step either lands on an
in-range OPEN cell — which is returned — or falls out of range — and the
original index is returned unchanged. -/
theorem c8_stepThroughRun_amended (W H : Nat) (flatGrid : List String) (i : Nat)
    (delta : Int) (hd : delta ≠ 0) :
    ∃ n : Nat, 1 ≤ n ∧
      (∀ m : Nat, 1 ≤ m → m < n →
        0 ≤ (i : Int) + (m : Int) * delta ∧
          (i : Int) + (m : Int) * delta < ((W * H : Nat) : Int) ∧
          isBlackAt flatGrid ((i : Int) + (m : Int) * delta).toNat = true) ∧
      ((0 ≤ (i : Int) + (n : Int) * delta ∧
          (i : Int) + (n : Int) * delta < ((W * H : Nat) : Int) ∧
          isBlackAt flatGrid ((i : Int) + (n : Int) * delta).toNat = false ∧
          step W H flatGrid i delta = ((i : Int) + (n : Int) * delta).toNat) ∨
        (¬ (0 ≤ (i : Int) + (n : Int) * delta ∧
            (i : Int) + (n : Int) * delta < ((W * H : Nat) : Int)) ∧
          step W H flatGrid i delta = i)) := by
  classical
  have hex := stepExit_exists flatGrid (W * H) delta hd i
  -- the least exit step
  let Q : Nat → Prop := fun n => 1 ≤ n ∧
    ¬ (0 ≤ (i : Int) + (n : Int) * delta ∧ (i : Int) + (n : Int) * delta < ((W * H : Nat) : Int) ∧
        isBlackAt flatGrid ((i : Int) + (n : Int) * delta).toNat = true)
  have hexQ : ∃ n, Q n := by
    obtain ⟨n, hn1, _, hn3⟩ := hex
    exact ⟨n, hn1, hn3⟩
  obtain ⟨nw, hw1, hw2, hw3⟩ := hex
  have hfind := Nat.find_spec hexQ
  have hfle : Nat.find hexQ ≤ nw := Nat.find_min' hexQ ⟨hw1, hw3⟩
  refine ⟨Nat.find hexQ, hfind.1, ?_, ?_⟩
  · intro m hm1 hm2
    have hq := Nat.find_min hexQ hm2
    simp only [Q] at hq
    push_neg at hq
    exact hq hm1
  · have hloop := stepLoop_spec flatGrid (W * H) delta (W * H + 1) (i : Int) (Nat.find hexQ)
      hfind.1 (by omega)
      (fun m hm1 hm2 => by
        have hq := Nat.find_min hexQ hm2
        simp only [Q] at hq
        push_neg at hq
        exact hq hm1)
      hfind.2
    by_cases hin : 0 ≤ (i : Int) + ((Nat.find hexQ : Nat) : Int) * delta ∧
        (i : Int) + ((Nat.find hexQ : Nat) : Int) * delta < ((W * H : Nat) : Int)
    · left
      have hblack : isBlackAt flatGrid ((i : Int) + ((Nat.find hexQ : Nat) : Int) * delta).toNat
          = false := by
        cases hb : isBlackAt flatGrid ((i : Int) + ((Nat.find hexQ : Nat) : Int) * delta).toNat with
        | false => rfl
        | true => exact absurd ⟨hin.1, hin.2, hb⟩ hfind.2
      refine ⟨hin.1, hin.2, hblack, ?_⟩
      show (let j := stepLoop flatGrid (W * H) delta (W * H + 1) (i : Int);
            if 0 ≤ j ∧ j < ((W * H : Nat) : Int) then j.toNat else i) = _
      simp only [hloop]
      rw [if_pos hin]
    · right
      refine ⟨hin, ?_⟩
      show (let j := stepLoop flatGrid (W * H) delta (W * H + 1) (i : Int);
            if 0 ≤ j ∧ j < ((W * H : Nat) : Int) then j.toNat else i) = i
      simp only [hloop]
      rw [if_neg hin]

/-- Witness for the amended C8 on the 1×5 grid `A B # C D` with `from = 1`,
`delta = 1`: the loop skips the BLOCKED cell 2 and stops on the OPEN cell 3. -/
theorem c8_stepThroughRun_amended_witness :
    ∃ n : Nat, 1 ≤ n ∧
      (∀ m : Nat, 1 ≤ m → m < n →
        0 ≤ (1 : Int) + (m : Int) * 1 ∧
          (1 : Int) + (m : Int) * 1 < ((5 * 1 : Nat) : Int) ∧
          isBlackAt ["A", "B", "#", "C", "D"] ((1 : Int) + (m : Int) * 1).toNat = true) ∧
      ((0 ≤ (1 : Int) + (n : Int) * 1 ∧
          (1 : Int) + (n : Int) * 1 < ((5 * 1 : Nat) : Int) ∧
          isBlackAt ["A", "B", "#", "C", "D"] ((1 : Int) + (n : Int) * 1).toNat = false ∧
          step 5 1 ["A", "B", "#", "C", "D"] 1 1 = ((1 : Int) + (n : Int) * 1).toNat) ∨
        (¬ (0 ≤ (1 : Int) + (n : Int) * 1 ∧
            (1 : Int) + (n : Int) * 1 < ((5 * 1 : Nat) : Int)) ∧
          step 5 1 ["A", "B", "#", "C", "D"] 1 1 = 1)) := by
  have h := c8_stepThroughRun_amended 5 1 ["A", "B", "#", "C", "D"] 1 1 (by decide)
  exact_mod_cast h

/-! ### C3: backspace/delete semantics -/

/-- The cell one step back from `f` inside its run, clamped at the run start
(`f` itself when the run is empty or `f` is the start). -/
def prevInRun (run : List Nat) (f : Nat) : Nat :=
  run.getD (run.indexOf f - 1) f

theorem get?_eq_some_getD (l : List Nat) (i : Nat) (d : Nat) (h : i < l.length) :
    l.get? i = some (l.getD i d) := by
  rw [List.get?_eq_getElem?, List.getD_eq_getElem?_getD]
  cases hx : l[i]? with
  | none =>
    rw [List.getElem?_eq_none_iff] at hx
    omega
  | some v => simp

/-- The delete-branch record produced by `handleKey` for Backspace/Delete. -/
def deleteResult (W H : Nat) (flatGrid cells : List String) (dir : Dir) (f : Nat) :
    EngState :=
  ⟨(if cells.getD f "" ≠ "" ∧ cells.getD f "" ≠ "#" then cells.set f ""
    else
      match (runAt W H flatGrid f dir).get?
          (Int.toNat (max 0 (jsIndexOf (runAt W H flatGrid f dir) f - 1))) with
      | some b => cells.set b ""
      | none => cells),
    dir,
    some (((runAt W H flatGrid f dir).get?
        (Int.toNat (max 0 (jsIndexOf (runAt W H flatGrid f dir) f - 1)))).getD f)⟩

/-- Evaluation of the `handleKey` Backspace branch on a focused state. -/
theorem handleKey_backspace_eval (W H : Nat) (flatGrid cells : List String) (dir : Dir)
    (f : Nat) (shiftKey : Bool) :
    handleKey W H flatGrid "Backspace" shiftKey ⟨cells, dir, some f⟩ =
      deleteResult W H flatGrid cells dir f := rfl

/-- Evaluation of the `handleKey` Delete branch on a focused state. -/
theorem handleKey_delete_eval (W H : Nat) (flatGrid cells : List String) (dir : Dir)
    (f : Nat) (shiftKey : Bool) :
    handleKey W H flatGrid "Delete" shiftKey ⟨cells, dir, some f⟩ =
      deleteResult W H flatGrid cells dir f := rfl

/-- The `run.get? (max 0 (pos-1))` read of the delete branch resolves to
`prevInRun` when the focused cell belongs to the run. -/
theorem back_eq_prevInRun (run : List Nat) (f : Nat) (hf : f ∈ run) :
    run.get? (Int.toNat (max 0 (jsIndexOf run f - 1))) = some (prevInRun run f) := by
  have hlt : run.indexOf f < run.length := List.indexOf_lt_length.mpr hf
  have hidx : Int.toNat (max 0 (jsIndexOf run f - 1)) = run.indexOf f - 1 := by
    rw [jsIndexOf, if_pos hf]
    omega
  rw [hidx, prevInRun]
  exact get?_eq_some_getD run (run.indexOf f - 1) f (by omega)

/-- **C3 counterexample.** On the 1×5 grid `A B # C D` with the focused cell 1
holding the letter `B`, Backspace clears the letter but *moves focus back* to
cell 0, while the claim states focus stays on the focused cell (1). -/
theorem c3_deleteAt_counterexample :
    handleKey 5 1 ["A", "B", "#", "C", "D"] "Backspace" false
        ⟨["A", "B", "#", "", ""], Dir.across, some 1⟩
      = ⟨["A", "", "#", "", ""], Dir.across, some 0⟩ ∧
      (some 0 : Option Nat) ≠ some 1 := by
  decide

/-- **C3 amended.** Backspace/Delete on a focused OPEN cell: if the cell holds
a letter it is cleared, otherwise the previous cell in the current run
(clamped at the run start) is cleared; in *both* cases focus moves to that
previous-in-run cell (staying put only when the focused cell is the run start
or has no run); with the focused cell empty at the start of its run, the
state is left completely unchanged. -/
theorem c3_deleteAt_amended (W H : Nat) (flatGrid cells : List String) (dir : Dir)
    (f : Nat) (key : String) (hkey : key = "Backspace" ∨ key = "Delete")
    (hopen : cells.getD f "" ≠ "#")
    (hrun : runAt W H flatGrid f dir = [] ∨ f ∈ runAt W H flatGrid f dir) :
    (handleKey W H flatGrid key false ⟨cells, dir, some f⟩).dir = dir ∧
    (handleKey W H flatGrid key false ⟨cells, dir, some f⟩).focus
      = some (prevInRun (runAt W H flatGrid f dir) f) ∧
    (cells.getD f "" ≠ "" →
      (handleKey W H flatGrid key false ⟨cells, dir, some f⟩).cells = cells.set f "") ∧
    (cells.getD f "" = "" →
      (handleKey W H flatGrid key false ⟨cells, dir, some f⟩).cells
        = cells.set (prevInRun (runAt W H flatGrid f dir) f) "") ∧
    (cells.getD f "" = "" → (runAt W H flatGrid f dir).headD f = f →
      handleKey W H flatGrid key false ⟨cells, dir, some f⟩ = ⟨cells, dir, some f⟩) := by
  have heval : handleKey W H flatGrid key false ⟨cells, dir, some f⟩ =
      deleteResult W H flatGrid cells dir f := by
    rcases hkey with hk | hk <;> subst hk
    · exact handleKey_backspace_eval W H flatGrid cells dir f false
    · exact handleKey_delete_eval W H flatGrid cells dir f false
  rw [heval]
  rcases hrun with hemp | hmem
  · -- no run through the focused cell: indexOf misses, back is none
    have hback : (runAt W H flatGrid f dir).get?
        (Int.toNat (max 0 (jsIndexOf (runAt W H flatGrid f dir) f - 1))) = none := by
      rw [hemp]; rfl
    have hprev : prevInRun (runAt W H flatGrid f dir) f = f := by
      rw [hemp]; rfl
    rw [deleteResult, hback, hprev]
    refine ⟨rfl, rfl, ?_, ?_, ?_⟩
    · intro hne
      rw [if_pos ⟨hne, hopen⟩]
    · intro hem
      rw [if_neg (fun hcon => hcon.1 hem)]
      exact (set_self_of_getD cells f "" hem).symm
    · intro hem _
      rw [if_neg (fun hcon => hcon.1 hem)]
      rfl
  · -- the focused cell is in the run
    have hback := back_eq_prevInRun (runAt W H flatGrid f dir) f hmem
    rw [deleteResult, hback]
    refine ⟨rfl, rfl, ?_, ?_, ?_⟩
    · intro hne
      rw [if_pos ⟨hne, hopen⟩]
    · intro hem
      rw [if_neg (fun hcon => hcon.1 hem)]
    · intro hem hhead
      rw [if_neg (fun hcon => hcon.1 hem)]
      have hne : runAt W H flatGrid f dir ≠ [] := by
        intro hc; rw [hc] at hmem; simp at hmem
      obtain ⟨a, t, hat⟩ := List.exists_cons_of_ne_nil hne
      have haf : a = f := by
        rw [hat] at hhead
        simpa using hhead
      have hprev : prevInRun (runAt W H flatGrid f dir) f = f := by
        rw [hat, haf, prevInRun, List.indexOf_cons_self]
        rfl
      rw [hprev]
      show EngState.mk (cells.set f "") dir (some f) = EngState.mk cells dir (some f)
      rw [set_self_of_getD cells f "" hem]

/-- Witness for the amended C3: Backspace on the focused cell 1 (holding `B`)
of the 1×5 grid moves focus to the previous in-run cell. -/
theorem c3_deleteAt_amended_witness :
    (handleKey 5 1 ["A", "B", "#", "C", "D"] "Backspace" false
        ⟨["A", "B", "#", "", ""], Dir.across, some 1⟩).focus
      = some (prevInRun (runAt 5 1 ["A", "B", "#", "C", "D"] 1 Dir.across) 1) :=
  (c3_deleteAt_amended 5 1 ["A", "B", "#", "C", "D"] ["A", "B", "#", "", ""] Dir.across 1
    "Backspace" (Or.inl rfl) (by decide) (by decide)).2.1

/-! ### C4: arrow keys -/

/-- **C4 counterexample.** On an all-open 2×2 grid with focus on cell 2 (row 1,
column 0), ArrowLeft moves focus to cell 1 — the *last cell of row 0* — instead
of refusing the move as the claim requires for an off-grid leftward target. -/
theorem c4_arrowKeys_counterexample :
    handleKey 2 2 ["A", "B", "C", "D"] "ArrowLeft" false
        ⟨["", "", "", ""], Dir.down, some 2⟩
      = ⟨["", "", "", ""], Dir.across, some 1⟩ ∧
      2 / 2 ≠ 1 / 2 := by
  decide

theorem arrowRes_spec (W H : Nat) (flatGrid cells : List String) (f : Nat)
    (dir2 : Dir) (delta : Int) (res : EngState)
    (hres : res =
      if ((f : Int) + delta) < 0 ∨ ((W * H : Nat) : Int) ≤ ((f : Int) + delta) ∨
          isBlackAt flatGrid ((f : Int) + delta).toNat then
        ⟨cells, dir2, some f⟩
      else ⟨cells, dir2, some ((f : Int) + delta).toNat⟩) :
    res.cells = cells ∧ res.dir = dir2 ∧
    res.focus = some (if 0 ≤ (f : Int) + delta ∧ (f : Int) + delta < ((W * H : Nat) : Int) ∧
        isBlackAt flatGrid ((f : Int) + delta).toNat = false
      then ((f : Int) + delta).toNat else f) := by
  by_cases hc : ((f : Int) + delta) < 0 ∨ ((W * H : Nat) : Int) ≤ ((f : Int) + delta) ∨
      isBlackAt flatGrid ((f : Int) + delta).toNat
  · rw [if_pos hc] at hres
    subst hres
    refine ⟨rfl, rfl, ?_⟩
    rw [if_neg]
    intro ⟨h1, h2, h3⟩
    rcases hc with hx | hx | hx
    · omega
    · omega
    · rw [h3] at hx; exact absurd hx (by simp)
  · rw [if_neg hc] at hres
    subst hres
    push_neg at hc
    obtain ⟨h1, h2, h3⟩ := hc
    refine ⟨rfl, rfl, ?_⟩
    rw [if_pos ⟨by omega, by omega, by simpa using h3⟩]

/-- **C4 amended.** An arrow key always forces the direction (ACROSS for
left/right, DOWN for up/down, even when the move is refused), never changes
the cells, and moves focus by one step of the *linear* index (`±1` for
left/right — wrapping between rows at row boundaries — and `±W` for up/down),
refusing only when the target falls outside `[0, W·H)` or is BLOCKED. -/
theorem c4_arrowKeys_amended (W H : Nat) (flatGrid cells : List String) (dir : Dir)
    (f : Nat) (key : String) (shiftKey : Bool)
    (hkey : key = "ArrowLeft" ∨ key = "ArrowRight" ∨ key = "ArrowUp" ∨ key = "ArrowDown") :
    (handleKey W H flatGrid key shiftKey ⟨cells, dir, some f⟩).cells = cells ∧
    (handleKey W H flatGrid key shiftKey ⟨cells, dir, some f⟩).dir
      = (if key = "ArrowUp" ∨ key = "ArrowDown" then Dir.down else Dir.across) ∧
    (handleKey W H flatGrid key shiftKey ⟨cells, dir, some f⟩).focus
      = some (
          let delta : Int :=
            if key = "ArrowLeft" then -1
            else if key = "ArrowRight" then 1
            else if key = "ArrowUp" then -(W : Int)
            else (W : Int)
          if 0 ≤ (f : Int) + delta ∧ (f : Int) + delta < ((W * H : Nat) : Int) ∧
              isBlackAt flatGrid ((f : Int) + delta).toNat = false
          then ((f : Int) + delta).toNat else f) := by
  rcases hkey with hk | hk | hk | hk <;> subst hk
  · have h := arrowRes_spec W H flatGrid cells f Dir.across (-1)
      (handleKey W H flatGrid "ArrowLeft" shiftKey ⟨cells, dir, some f⟩) rfl
    have hdelta : (if ("ArrowLeft" : String) = "ArrowLeft" then (-1 : Int)
        else if ("ArrowLeft" : String) = "ArrowRight" then 1
        else if ("ArrowLeft" : String) = "ArrowUp" then -(W : Int) else (W : Int)) = -1 :=
      if_pos rfl
    refine ⟨h.1, ?_, ?_⟩
    · rw [h.2.1, if_neg (by decide)]
    · rw [hdelta, h.2.2]
  · have h := arrowRes_spec W H flatGrid cells f Dir.across 1
      (handleKey W H flatGrid "ArrowRight" shiftKey ⟨cells, dir, some f⟩) rfl
    have hdelta : (if ("ArrowRight" : String) = "ArrowLeft" then (-1 : Int)
        else if ("ArrowRight" : String) = "ArrowRight" then 1
        else if ("ArrowRight" : String) = "ArrowUp" then -(W : Int) else (W : Int)) = 1 := by
      rw [if_neg (by decide), if_pos rfl]
    refine ⟨h.1, ?_, ?_⟩
    · rw [h.2.1, if_neg (by decide)]
    · rw [hdelta, h.2.2]
  · have h := arrowRes_spec W H flatGrid cells f Dir.down (-(W : Int))
      (handleKey W H flatGrid "ArrowUp" shiftKey ⟨cells, dir, some f⟩) rfl
    have hdelta : (if ("ArrowUp" : String) = "ArrowLeft" then (-1 : Int)
        else if ("ArrowUp" : String) = "ArrowRight" then 1
        else if ("ArrowUp" : String) = "ArrowUp" then -(W : Int) else (W : Int)) = -(W : Int) := by
      rw [if_neg (by decide), if_neg (by decide), if_pos rfl]
    refine ⟨h.1, ?_, ?_⟩
    · rw [h.2.1, if_pos (by decide)]
    · rw [hdelta, h.2.2]
  · have h := arrowRes_spec W H flatGrid cells f Dir.down ((W : Int))
      (handleKey W H flatGrid "ArrowDown" shiftKey ⟨cells, dir, some f⟩) rfl
    have hdelta : (if ("ArrowDown" : String) = "ArrowLeft" then (-1 : Int)
        else if ("ArrowDown" : String) = "ArrowRight" then 1
        else if ("ArrowDown" : String) = "ArrowUp" then -(W : Int) else (W : Int)) = (W : Int) := by
      rw [if_neg (by decide), if_neg (by decide), if_neg (by decide)]
    refine ⟨h.1, ?_, ?_⟩
    · rw [h.2.1, if_pos (by decide)]
    · rw [hdelta, h.2.2]

/-- Witness for the amended C4: ArrowRight on a 1×2 grid from cell 0 keeps the
cells, forces ACROSS and moves focus to cell 1. -/
theorem c4_arrowKeys_amended_witness :
    (handleKey 2 1 ["A", "B"] "ArrowRight" false ⟨["", ""], Dir.down, some 0⟩).cells
        = ["", ""] ∧
      (handleKey 2 1 ["A", "B"] "ArrowRight" false ⟨["", ""], Dir.down, some 0⟩).dir
        = (if ("ArrowRight" : String) = "ArrowUp" ∨ ("ArrowRight" : String) = "ArrowDown"
            then Dir.down else Dir.across) :=
  ⟨(c4_arrowKeys_amended 2 1 ["A", "B"] ["", ""] Dir.down 0 "ArrowRight" false
      (Or.inr (Or.inl rfl))).1,
    (c4_arrowKeys_amended 2 1 ["A", "B"] ["", ""] Dir.down 0 "ArrowRight" false
      (Or.inr (Or.inl rfl))).2.1⟩

/-! ### C5: `jumpToNextRun` -/

theorem getD_eq_get (l : List Nat) (i : Nat) (h : i < l.length) :
    l.getD i 0 = l.get ⟨i, h⟩ := by
  rw [List.getD_eq_getElem?_getD, List.getElem?_eq_getElem h]
  rfl

theorem getD_mem_of_lt (l : List Nat) (i : Nat) (h : i < l.length) : l.getD i 0 ∈ l := by
  rw [getD_eq_get l i h]
  exact List.get_mem l i h

theorem getD_indexOf_self (l : List Nat) (cur : Nat) (hc : cur ∈ l) :
    l.getD (l.indexOf cur) 0 = cur := by
  have hlt : l.indexOf cur < l.length := List.indexOf_lt_length.mpr hc
  rw [getD_eq_get l _ hlt]
  exact List.indexOf_get hlt

theorem getD_lt_of_pairwise (l : List Nat) (hp : List.Pairwise (· < ·) l)
    {i j : Nat} (hij : i < j) (hj : j < l.length) : l.getD i 0 < l.getD j 0 := by
  have hi : i < l.length := by omega
  rw [getD_eq_get l i hi, getD_eq_get l j hj]
  exact List.pairwise_iff_get.mp hp ⟨i, hi⟩ ⟨j, hj⟩ hij

/-- In a strictly sorted list, the element after `cur` is the least element
greater than `cur`; if `cur` is last there is no greater element. -/
theorem sortedNext_spec (l : List Nat) (hp : List.Pairwise (· < ·) l) (cur : Nat)
    (hc : cur ∈ l) :
    (l.indexOf cur + 1 < l.length →
      cur < l.getD (l.indexOf cur + 1) 0 ∧
        ∀ x ∈ l, cur < x → l.getD (l.indexOf cur + 1) 0 ≤ x) ∧
    (l.indexOf cur + 1 = l.length → ∀ x ∈ l, ¬ cur < x) := by
  have hlt : l.indexOf cur < l.length := List.indexOf_lt_length.mpr hc
  have hcur := getD_indexOf_self l cur hc
  constructor
  · intro hsucc
    constructor
    · have hstep := getD_lt_of_pairwise l hp
        (show l.indexOf cur < l.indexOf cur + 1 by omega) hsucc
      rw [hcur] at hstep
      exact hstep
    · intro x hx hcx
      obtain ⟨⟨k, hk⟩, hxk⟩ := List.mem_iff_get.mp hx
      have hxk' : l.getD k 0 = x := by rw [getD_eq_get l k hk]; exact hxk
      rcases Nat.lt_trichotomy k (l.indexOf cur) with hord | hord | hord
      · exfalso
        have := getD_lt_of_pairwise l hp hord hlt
        rw [hcur, hxk'] at this
        omega
      · exfalso
        rw [hord, hcur] at hxk'
        omega
      · rcases Nat.eq_or_lt_of_le hord with he | he
        · rw [← hxk', ← he]
        · have := getD_lt_of_pairwise l hp (show l.indexOf cur + 1 < k by omega) hk
          rw [hxk'] at this
          omega
  · intro hlast x hx hcx
    obtain ⟨⟨k, hk⟩, hxk⟩ := List.mem_iff_get.mp hx
    have hxk' : l.getD k 0 = x := by rw [getD_eq_get l k hk]; exact hxk
    rcases Nat.lt_trichotomy k (l.indexOf cur) with hord | hord | hord
    · have := getD_lt_of_pairwise l hp hord hlt
      rw [hcur, hxk'] at this
      omega
    · rw [hord, hcur] at hxk'
      omega
    · omega

/-- In a strictly sorted list, the element before `cur` is the greatest element
smaller than `cur`; if `cur` is first there is no smaller element. -/
theorem sortedPrev_spec (l : List Nat) (hp : List.Pairwise (· < ·) l) (cur : Nat)
    (hc : cur ∈ l) :
    (1 ≤ l.indexOf cur →
      l.getD (l.indexOf cur - 1) 0 < cur ∧
        ∀ x ∈ l, x < cur → x ≤ l.getD (l.indexOf cur - 1) 0) ∧
    (l.indexOf cur = 0 → ∀ x ∈ l, ¬ x < cur) := by
  have hlt : l.indexOf cur < l.length := List.indexOf_lt_length.mpr hc
  have hcur := getD_indexOf_self l cur hc
  constructor
  · intro hge
    constructor
    · have hstep := getD_lt_of_pairwise l hp
        (show l.indexOf cur - 1 < l.indexOf cur by omega) hlt
      rw [hcur] at hstep
      exact hstep
    · intro x hx hcx
      obtain ⟨⟨k, hk⟩, hxk⟩ := List.mem_iff_get.mp hx
      have hxk' : l.getD k 0 = x := by rw [getD_eq_get l k hk]; exact hxk
      rcases Nat.lt_trichotomy k (l.indexOf cur) with hord | hord | hord
      · rcases Nat.eq_or_lt_of_le (show k ≤ l.indexOf cur - 1 by omega) with he | he
        · rw [← hxk', he]
        · have := getD_lt_of_pairwise l hp he (by omega)
          rw [hxk'] at this
          omega
      · exfalso
        rw [hord, hcur] at hxk'
        omega
      · exfalso
        have := getD_lt_of_pairwise l hp hord hk
        rw [hcur, hxk'] at this
        omega
  · intro hzero x hx hcx
    obtain ⟨⟨k, hk⟩, hxk⟩ := List.mem_iff_get.mp hx
    have hxk' : l.getD k 0 = x := by rw [getD_eq_get l k hk]; exact hxk
    rcases Nat.lt_trichotomy k (l.indexOf cur) with hord | hord | hord
    · omega
    · rw [hord, hcur] at hxk'
      omega
    · have := getD_lt_of_pairwise l hp hord hk
      rw [hcur, hxk'] at this
      omega

/-- The head of a strictly sorted nonempty list is its least element. -/
theorem sortedHead_least (l : List Nat) (hp : List.Pairwise (· < ·) l) :
    ∀ x ∈ l, l.getD 0 0 ≤ x := by
  intro x hx
  obtain ⟨⟨k, hk⟩, hxk⟩ := List.mem_iff_get.mp hx
  have hxk' : l.getD k 0 = x := by rw [getD_eq_get l k hk]; exact hxk
  rcases Nat.eq_zero_or_pos k with he | he
  · rw [← hxk', he]
  · have := getD_lt_of_pairwise l hp he hk
    omega

theorem lookup_of_key_mem (m : List (Nat × List Nat)) (n : Nat)
    (hn : n ∈ m.map Prod.fst) : ∃ r, List.lookup n m = some r := by
  induction m with
  | nil => simp at hn
  | cons a t ih =>
    by_cases he : n = a.1
    · refine ⟨a.2, ?_⟩
      rw [List.lookup, show (n == a.1) = true from beq_iff_eq.mpr he]
    · have hn' : n ∈ t.map Prod.fst := by
        rcases List.mem_map.mp hn with ⟨p, hp, hfp⟩
        rcases List.mem_cons.mp hp with hpa | hpt
        · exact absurd (show n = a.1 by rw [← hfp, hpa]) he
        · exact List.mem_map.mpr ⟨p, hpt, hfp⟩
      obtain ⟨r, hr⟩ := ih hn'
      refine ⟨r, ?_⟩
      rw [List.lookup, show (n == a.1) = false from beq_eq_false_iff_ne.mpr he]
      exact hr

/-- The keys of `mapAcross` are strictly increasing in insertion order. -/
theorem mapAcross_keys_pairwise (grid : List String) (w h : Nat) :
    List.Pairwise (· < ·) ((mapAcross grid w h).map Prod.fst) := by
  rw [mapAcross, List.map_filterMap]
  rw [List.pairwise_filterMap]
  have hbase := List.pairwise_lt_range (w * h)
  refine hbase.imp_of_mem ?_
  intro i j hi hj hij
  intro b hb c hc
  have hiw : i < w * h := List.mem_range.mp hi
  have hjw : j < w * h := List.mem_range.mp hj
  by_cases hsi : startA grid w i
  · by_cases hsj : startA grid w j
    · rw [if_pos hsi] at hb
      rw [if_pos hsj] at hc
      simp only [Option.map_some', Option.mem_def, Option.some.injEq] at hb hc
      have hni : (numbers grid w h).getD i none =
          some (1 + (List.range i).countP (fun t => isStart grid w h t)) := by
        rw [numbers_getD grid w h i hiw, if_pos (by rw [isStart]; simp [hsi])]
      have hnj : (numbers grid w h).getD j none =
          some (1 + (List.range j).countP (fun t => isStart grid w h t)) := by
        rw [numbers_getD grid w h j hjw, if_pos (by rw [isStart]; simp [hsj])]
      have hlt := numbers_lt_of_lt grid w h hij hjw hni hnj
      rw [← hb, ← hc, hni, hnj]
      simpa using hlt
    · rw [if_neg hsj] at hc
      simp at hc
  · rw [if_neg hsi] at hb
    simp at hb

/-- The keys of `mapDown` are strictly increasing in insertion order. -/
theorem mapDown_keys_pairwise (grid : List String) (w h : Nat) :
    List.Pairwise (· < ·) ((mapDown grid w h).map Prod.fst) := by
  rw [mapDown, List.map_filterMap]
  rw [List.pairwise_filterMap]
  have hbase := List.pairwise_lt_range (w * h)
  refine hbase.imp_of_mem ?_
  intro i j hi hj hij
  intro b hb c hc
  have hiw : i < w * h := List.mem_range.mp hi
  have hjw : j < w * h := List.mem_range.mp hj
  by_cases hsi : startD grid w h i
  · by_cases hsj : startD grid w h j
    · rw [if_pos hsi] at hb
      rw [if_pos hsj] at hc
      simp only [Option.map_some', Option.mem_def, Option.some.injEq] at hb hc
      have hni : (numbers grid w h).getD i none =
          some (1 + (List.range i).countP (fun t => isStart grid w h t)) := by
        rw [numbers_getD grid w h i hiw, if_pos (by rw [isStart]; simp [hsi])]
      have hnj : (numbers grid w h).getD j none =
          some (1 + (List.range j).countP (fun t => isStart grid w h t)) := by
        rw [numbers_getD grid w h j hjw, if_pos (by rw [isStart]; simp [hsj])]
      have hlt := numbers_lt_of_lt grid w h hij hjw hni hnj
      rw [← hb, ← hc, hni, hnj]
      simpa using hlt
    · rw [if_neg hsj] at hc
      simp at hc
  · rw [if_neg hsi] at hb
    simp at hb

theorem headD_eq_getD (l : List Nat) : l.headD 0 = l.getD 0 0 := by
  cases l <;> rfl

theorem headD_mem (l : List Nat) (hne : l ≠ []) : l.headD 0 ∈ l := by
  cases l with
  | nil => exact absurd rfl hne
  | cons a t => exact List.mem_cons_self a t

/-- The last element of a strictly sorted nonempty list is its greatest. -/
theorem sortedLast_greatest (l : List Nat) (hp : List.Pairwise (· < ·) l) :
    ∀ x ∈ l, x ≤ l.getD (l.length - 1) 0 := by
  intro x hx
  obtain ⟨⟨k, hk⟩, hxk⟩ := List.mem_iff_get.mp hx
  have hxk' : l.getD k 0 = x := by rw [getD_eq_get l k hk]; exact hxk
  rcases Nat.eq_or_lt_of_le (show k ≤ l.length - 1 by omega) with he | he
  · rw [← hxk', he]
  · have := getD_lt_of_pairwise l hp he (by omega)
    omega

theorem isEmpty_eq_false_of_ne_nil {l : List Nat} (h : l ≠ []) : l.isEmpty = false := by
  cases l with
  | nil => exact absurd rfl h
  | cons a t => rfl

/-- Behaviour of `jumpToNextRun` when the focused cell carries no number
(`numbers[focus]` is null): it jumps to the first cell of the run with the
least key of the selected map. -/
theorem jumpCore_none_spec (flatGrid : List String) (W H : Nat) (forward : Bool)
    (m : List (Nat × List Nat)) (st : EngState) (f : Nat)
    (hf : st.focus = some f)
    (hkeys : List.Pairwise (· < ·) (m.map Prod.fst))
    (hne : m ≠ [])
    (hnone : (numbers flatGrid W H).getD f none = none) :
    ∃ n run, n ∈ m.map Prod.fst ∧ (∀ k ∈ m.map Prod.fst, n ≤ k) ∧
      List.lookup n m = some run ∧
      (jumpCore flatGrid W H forward m st).focus = some (run.headD 0) := by
  have hsorted : List.Sorted (· ≤ ·) (m.map Prod.fst) := hkeys.imp le_of_lt
  have hnums : List.insertionSort (· ≤ ·) (m.map Prod.fst) = m.map Prod.fst :=
    List.Sorted.insertionSort_eq hsorted
  have hkne : m.map Prod.fst ≠ [] := by
    intro hc
    apply hne
    cases m with
    | nil => rfl
    | cons a t => simp at hc
  have hempty : (m.map Prod.fst).isEmpty = false := isEmpty_eq_false_of_ne_nil hkne
  have heval : jumpCore flatGrid W H forward m st =
      { st with focus := some (((List.lookup ((m.map Prod.fst).headD 0) m).getD []).headD 0) } := by
    unfold jumpCore
    rw [hnums, hf]
    rw [if_neg (by rw [hempty]; simp)]
    simp only [Option.getD_some]
    rw [hnone]
  have hmem := headD_mem (m.map Prod.fst) hkne
  obtain ⟨r, hr⟩ := lookup_of_key_mem m ((m.map Prod.fst).headD 0) hmem
  refine ⟨(m.map Prod.fst).headD 0, r, hmem, ?_, hr, ?_⟩
  · intro k hk
    rw [headD_eq_getD]
    exact sortedHead_least (m.map Prod.fst) hkeys k hk
  · rw [heval]
    show some (((List.lookup ((m.map Prod.fst).headD 0) m).getD []).headD 0) = _
    rw [hr]
    rfl

/-- Behaviour of `jumpToNextRun` when the focused cell carries a number that
is a key of the selected map: forward moves to the run keyed by the least key
greater than the current number (wrapping to the overall least key when none
is greater), and backward symmetrically to the greatest smaller key (wrapping
to the overall greatest). -/
theorem jumpCore_some_spec (flatGrid : List String) (W H : Nat) (forward : Bool)
    (m : List (Nat × List Nat)) (st : EngState) (f cur : Nat)
    (hf : st.focus = some f)
    (hkeys : List.Pairwise (· < ·) (m.map Prod.fst))
    (hsome : (numbers flatGrid W H).getD f none = some cur)
    (hpos : cur ≠ 0)
    (hmem : cur ∈ m.map Prod.fst) :
    ∃ n run, n ∈ m.map Prod.fst ∧ List.lookup n m = some run ∧
      (jumpCore flatGrid W H forward m st).focus = some (run.headD 0) ∧
      (forward = true →
        ((∀ k ∈ m.map Prod.fst, ¬ cur < k) → ∀ k ∈ m.map Prod.fst, n ≤ k) ∧
        (∀ k0 ∈ m.map Prod.fst, cur < k0 →
          cur < n ∧ ∀ k ∈ m.map Prod.fst, cur < k → n ≤ k)) ∧
      (forward = false →
        ((∀ k ∈ m.map Prod.fst, ¬ k < cur) → ∀ k ∈ m.map Prod.fst, k ≤ n) ∧
        (∀ k0 ∈ m.map Prod.fst, k0 < cur →
          n < cur ∧ ∀ k ∈ m.map Prod.fst, k < cur → k ≤ n)) := by
  have hsorted : List.Sorted (· ≤ ·) (m.map Prod.fst) := hkeys.imp le_of_lt
  have hnums : List.insertionSort (· ≤ ·) (m.map Prod.fst) = m.map Prod.fst :=
    List.Sorted.insertionSort_eq hsorted
  have hkne : m.map Prod.fst ≠ [] := by
    intro hc
    rw [hc] at hmem
    simp at hmem
  have hempty : (m.map Prod.fst).isEmpty = false := isEmpty_eq_false_of_ne_nil hkne
  have hilt : List.indexOf cur (m.map Prod.fst) < (m.map Prod.fst).length :=
    List.indexOf_lt_length.mpr hmem
  have hlen1 : 1 ≤ (m.map Prod.fst).length := by
    cases hl : m.map Prod.fst with
    | nil => exact absurd hl hkne
    | cons a t => simp
  have hidx : jsIndexOf (m.map Prod.fst) cur = (List.indexOf cur (m.map Prod.fst) : Int) := by
    rw [jsIndexOf, if_pos hmem]
  have heval : jumpCore flatGrid W H forward m st =
      { st with focus := some (((List.lookup
          ((m.map Prod.fst).getD
            (Int.toNat (((List.indexOf cur (m.map Prod.fst) : Int) +
                (if forward then 1 else -1) +
                ((m.map Prod.fst).length : Int)) %
              ((m.map Prod.fst).length : Int))) 0) m).getD []).headD 0) } := by
    unfold jumpCore
    rw [hnums, hf]
    rw [if_neg (by rw [hempty]; simp)]
    simp only [Option.getD_some]
    rw [hsome]
    show (if cur = 0 then _ else _) = _
    rw [if_neg hpos, hidx]
  -- name the pieces
  set i := List.indexOf cur (m.map Prod.fst) with hidef
  set L := (m.map Prod.fst).length with hLdef
  have hnext := sortedNext_spec (m.map Prod.fst) hkeys cur hmem
  have hprev := sortedPrev_spec (m.map Prod.fst) hkeys cur hmem
  cases forward with
  | true =>
    rcases Nat.lt_or_ge (i + 1) L with hcase | hcase
    · -- step to the next larger key
      have hmod : (((i : Int) + 1 + (L : Int)) % (L : Int)) = ((i : Int) + 1) := by
        have h1 : ((i : Int) + 1 + (L : Int)) = ((i : Int) + 1 + (L : Int) * 1) := by ring
        rw [h1, Int.add_mul_emod_self_left]
        exact Int.emod_eq_of_lt (by omega) (by exact_mod_cast hcase)
      have htn : Int.toNat ((i : Int) + 1) = i + 1 := by omega
      have hn := getD_mem_of_lt (m.map Prod.fst) (i + 1) hcase
      obtain ⟨r, hr⟩ := lookup_of_key_mem m ((m.map Prod.fst).getD (i + 1) 0) hn
      refine ⟨(m.map Prod.fst).getD (i + 1) 0, r, hn, hr, ?_, ?_, ?_⟩
      · rw [heval]
        show some (((List.lookup ((m.map Prod.fst).getD
            (Int.toNat (((i : Int) + 1 + (L : Int)) % (L : Int))) 0) m).getD []).headD 0) = _
        rw [hmod, htn, hr]
        rfl
      · intro _
        have hstep := hnext.1 hcase
        constructor
        · intro hnall
          exact absurd hstep.1 (hnall _ hn)
        · intro k0 _ _
          exact hstep
      · intro hc
        exact absurd hc (by simp)
    · -- cur has the largest key: wrap to the least key
      have hieq : i + 1 = L := by omega
      have hmod : (((i : Int) + 1 + (L : Int)) % (L : Int)) = 0 := by
        have h1 : ((i : Int) + 1 + (L : Int)) = ((L : Int) + (L : Int) * 1) := by
          rw [show ((i : Int) + 1) = (L : Int) by exact_mod_cast congrArg Nat.cast hieq]
          ring
        rw [h1, Int.add_mul_emod_self_left, Int.emod_self]
      have hn := getD_mem_of_lt (m.map Prod.fst) 0 (by omega)
      obtain ⟨r, hr⟩ := lookup_of_key_mem m ((m.map Prod.fst).getD 0 0) hn
      refine ⟨(m.map Prod.fst).getD 0 0, r, hn, hr, ?_, ?_, ?_⟩
      · rw [heval]
        show some (((List.lookup ((m.map Prod.fst).getD
            (Int.toNat (((i : Int) + 1 + (L : Int)) % (L : Int))) 0) m).getD []).headD 0) = _
        rw [hmod]
        rw [show Int.toNat 0 = 0 from rfl, hr]
        rfl
      · intro _
        constructor
        · intro _
          exact sortedHead_least (m.map Prod.fst) hkeys
        · intro k0 hk0 hck0
          exact absurd hck0 (hnext.2 hieq k0 hk0)
      · intro hc
        exact absurd hc (by simp)
  | false =>
    rcases Nat.lt_or_ge 0 i with hcase | hcase
    · -- step to the previous (next smaller) key
      have hmod : (((i : Int) + -1 + (L : Int)) % (L : Int)) = ((i : Int) - 1) := by
        have h1 : ((i : Int) + -1 + (L : Int)) = ((i : Int) - 1 + (L : Int) * 1) := by ring
        rw [h1, Int.add_mul_emod_self_left]
        refine Int.emod_eq_of_lt (by omega) (by
          have : (i : Int) < (L : Int) := by exact_mod_cast hilt
          omega)
      have htn : Int.toNat ((i : Int) - 1) = i - 1 := by omega
      have hn := getD_mem_of_lt (m.map Prod.fst) (i - 1) (by omega)
      obtain ⟨r, hr⟩ := lookup_of_key_mem m ((m.map Prod.fst).getD (i - 1) 0) hn
      refine ⟨(m.map Prod.fst).getD (i - 1) 0, r, hn, hr, ?_, ?_, ?_⟩
      · rw [heval]
        show some (((List.lookup ((m.map Prod.fst).getD
            (Int.toNat (((i : Int) + -1 + (L : Int)) % (L : Int))) 0) m).getD []).headD 0) = _
        rw [hmod, htn, hr]
        rfl
      · intro hc
        exact absurd hc (by simp)
      · intro _
        have hstep := hprev.1 (by omega)
        constructor
        · intro hnall
          exact absurd hstep.1 (hnall _ hn)
        · intro k0 _ _
          exact hstep
    · -- cur has the least key: wrap to the greatest key
      have hieq : i = 0 := by omega
      have hmod : (((i : Int) + -1 + (L : Int)) % (L : Int)) = ((L : Int) - 1) := by
        rw [show (i : Int) = 0 by exact_mod_cast congrArg Nat.cast hieq]
        refine Int.emod_eq_of_lt (by omega) (by omega)
      have htn : Int.toNat ((L : Int) - 1) = L - 1 := by omega
      have hn := getD_mem_of_lt (m.map Prod.fst) (L - 1) (by omega)
      obtain ⟨r, hr⟩ := lookup_of_key_mem m ((m.map Prod.fst).getD (L - 1) 0) hn
      refine ⟨(m.map Prod.fst).getD (L - 1) 0, r, hn, hr, ?_, ?_, ?_⟩
      · rw [heval]
        show some (((List.lookup ((m.map Prod.fst).getD
            (Int.toNat (((i : Int) + -1 + (L : Int)) % (L : Int))) 0) m).getD []).headD 0) = _
        rw [hmod, htn, hr]
        rfl
      · intro hc
        exact absurd hc (by simp)
      · intro _
        constructor
        · intro _
          exact sortedLast_greatest (m.map Prod.fst) hkeys
        · intro k0 hk0 hck0
          exact absurd hck0 (hprev.2 hieq k0 hk0)

/-- The per-direction run map selected by `jumpToNextRun`. -/
def dirMap (flatGrid : List String) (W H : Nat) (d : Dir) : List (Nat × List Nat) :=
  match d with
  | Dir.across => mapAcross flatGrid W H
  | Dir.down => mapDown flatGrid W H

theorem dirMap_keys_pairwise (flatGrid : List String) (W H : Nat) (d : Dir) :
    List.Pairwise (· < ·) ((dirMap flatGrid W H d).map Prod.fst) := by
  cases d with
  | across => exact mapAcross_keys_pairwise flatGrid W H
  | down => exact mapDown_keys_pairwise flatGrid W H

/-- **C5 counterexample.** On the 1×5 grid `A B # C D` (across runs 1 = cells
[0, 1] and 2 = cells [3, 4]) with focus on cell 1 — a cell *inside* run 1 —
`jumpToNextRun(true)` moves focus to cell 0, the first run's start, because
`numbers[1]` is null; the claim requires the run *containing* the focus to be
found and focus moved to run 2's first cell, 3. -/
theorem c5_jumpToAdjacentRun_counterexample :
    (jumpToNextRun 5 1 ["A", "B", "#", "C", "D"] true
        ⟨["", "", "#", "", ""], Dir.across, some 1⟩).focus = some 0 ∧
      1 ∈ runAt 5 1 ["A", "B", "#", "C", "D"] 1 Dir.across ∧
      (runAt 5 1 ["A", "B", "#", "C", "D"] 1 Dir.across).headD 9 = 0 ∧
      List.lookup 2 (mapAcross ["A", "B", "#", "C", "D"] 5 1) = some [3, 4] ∧
      (some 0 : Option Nat) ≠ some 3 := by
  decide

/-- **C5 amended.** `jumpToAdjacentRun` keys its step on the number stored *at
the focused cell itself* (not the number of the run containing the focus):
when that cell carries no number it jumps to the first cell of the
lowest-numbered run of the current direction; when it carries a number that is
a key of the current direction's map, forward moves to the first cell of the
run keyed by the least key greater than that number — wrapping to the overall
least key when the number is the largest — and backward symmetrically to the
greatest smaller key, wrapping to the overall greatest. -/
theorem c5_jumpToAdjacentRun_amended (W H : Nat) (flatGrid cells : List String)
    (dir : Dir) (f : Nat) (forward : Bool)
    (hne : dirMap flatGrid W H dir ≠ []) :
    ((numbers flatGrid W H).getD f none = none →
      ∃ n run, n ∈ (dirMap flatGrid W H dir).map Prod.fst ∧
        (∀ k ∈ (dirMap flatGrid W H dir).map Prod.fst, n ≤ k) ∧
        List.lookup n (dirMap flatGrid W H dir) = some run ∧
        (jumpToNextRun W H flatGrid forward ⟨cells, dir, some f⟩).focus
          = some (run.headD 0)) ∧
    (∀ cur, (numbers flatGrid W H).getD f none = some cur → cur ≠ 0 →
      cur ∈ (dirMap flatGrid W H dir).map Prod.fst →
      ∃ n run, n ∈ (dirMap flatGrid W H dir).map Prod.fst ∧
        List.lookup n (dirMap flatGrid W H dir) = some run ∧
        (jumpToNextRun W H flatGrid forward ⟨cells, dir, some f⟩).focus
          = some (run.headD 0) ∧
        (forward = true →
          ((∀ k ∈ (dirMap flatGrid W H dir).map Prod.fst, ¬ cur < k) →
            ∀ k ∈ (dirMap flatGrid W H dir).map Prod.fst, n ≤ k) ∧
          (∀ k0 ∈ (dirMap flatGrid W H dir).map Prod.fst, cur < k0 →
            cur < n ∧ ∀ k ∈ (dirMap flatGrid W H dir).map Prod.fst, cur < k → n ≤ k)) ∧
        (forward = false →
          ((∀ k ∈ (dirMap flatGrid W H dir).map Prod.fst, ¬ k < cur) →
            ∀ k ∈ (dirMap flatGrid W H dir).map Prod.fst, k ≤ n) ∧
          (∀ k0 ∈ (dirMap flatGrid W H dir).map Prod.fst, k0 < cur →
            n < cur ∧ ∀ k ∈ (dirMap flatGrid W H dir).map Prod.fst, k < cur → k ≤ n))) := by
  have hkeys := dirMap_keys_pairwise flatGrid W H dir
  constructor
  · intro hnone
    have h := jumpCore_none_spec flatGrid W H forward (dirMap flatGrid W H dir)
      ⟨cells, dir, some f⟩ f rfl hkeys hne hnone
    obtain ⟨n, run, hn, hleast, hlk, hfoc⟩ := h
    refine ⟨n, run, hn, hleast, hlk, ?_⟩
    rw [← hfoc]
    cases dir <;> rfl
  · intro cur hsome hpos hmem
    have h := jumpCore_some_spec flatGrid W H forward (dirMap flatGrid W H dir)
      ⟨cells, dir, some f⟩ f cur rfl hkeys hsome hpos hmem
    obtain ⟨n, run, hn, hlk, hfoc, htrue, hfalse⟩ := h
    refine ⟨n, run, hn, hlk, ?_, htrue, hfalse⟩
    rw [← hfoc]
    cases dir <;> rfl

/-- Witness for the amended C5: on the 1×5 grid with focus on the numbered
cell 0 (number 1, an across key), the conclusion instantiates concretely. -/
theorem c5_jumpToAdjacentRun_amended_witness :
    ∃ n run, n ∈ (dirMap ["A", "B", "#", "C", "D"] 5 1 Dir.across).map Prod.fst ∧
      List.lookup n (dirMap ["A", "B", "#", "C", "D"] 5 1 Dir.across) = some run ∧
      (jumpToNextRun 5 1 ["A", "B", "#", "C", "D"] true
          ⟨["", "", "#", "", ""], Dir.across, some 0⟩).focus = some (run.headD 0) ∧
      (true = true →
        ((∀ k ∈ (dirMap ["A", "B", "#", "C", "D"] 5 1 Dir.across).map Prod.fst, ¬ 1 < k) →
          ∀ k ∈ (dirMap ["A", "B", "#", "C", "D"] 5 1 Dir.across).map Prod.fst, n ≤ k) ∧
        (∀ k0 ∈ (dirMap ["A", "B", "#", "C", "D"] 5 1 Dir.across).map Prod.fst, 1 < k0 →
          1 < n ∧ ∀ k ∈ (dirMap ["A", "B", "#", "C", "D"] 5 1 Dir.across).map Prod.fst,
            1 < k → n ≤ k)) ∧
      (true = false →
        ((∀ k ∈ (dirMap ["A", "B", "#", "C", "D"] 5 1 Dir.across).map Prod.fst, ¬ k < 1) →
          ∀ k ∈ (dirMap ["A", "B", "#", "C", "D"] 5 1 Dir.across).map Prod.fst, k ≤ n) ∧
        (∀ k0 ∈ (dirMap ["A", "B", "#", "C", "D"] 5 1 Dir.across).map Prod.fst, k0 < 1 →
          n < 1 ∧ ∀ k ∈ (dirMap ["A", "B", "#", "C", "D"] 5 1 Dir.across).map Prod.fst,
            k < 1 → k ≤ n)) :=
  (c5_jumpToAdjacentRun_amended 5 1 ["A", "B", "#", "C", "D"] ["", "", "#", "", ""]
    Dir.across 0 true (by decide)).2 1 (by decide) (by decide) (by decide)

/-! ### C9: check/reveal never touch BLOCKED cells; reveal-all completes -/

theorem revealStep_length (flatGrid sol acc : List String) (i : Nat) :
    (revealStep flatGrid sol acc i).length = acc.length := by
  rw [revealStep]
  by_cases hb : isBlackAt flatGrid i
  · rw [if_pos hb]
  · rw [if_neg hb, List.length_set]

theorem foldl_revealStep_length (flatGrid sol : List String) :
    ∀ (scope : List Nat) (acc : List String),
      (scope.foldl (revealStep flatGrid sol) acc).length = acc.length := by
  intro scope
  induction scope with
  | nil => intro acc; rfl
  | cons a t ih =>
    intro acc
    rw [List.foldl_cons, ih (revealStep flatGrid sol acc a), revealStep_length]

/-- Cells at BLOCKED positions survive a `checkCurrent` scope walk. -/
theorem foldl_checkStep_blocked (flatGrid sol : List String) :
    ∀ (scope : List Nat) (acc : List String) (j : Nat), isBlackAt flatGrid j = true →
      (scope.foldl (checkStep flatGrid sol) acc).getD j "" = acc.getD j "" := by
  intro scope
  induction scope with
  | nil => intro acc j hj; rfl
  | cons a t ih =>
    intro acc j hj
    rw [List.foldl_cons, ih _ j hj]
    rw [checkStep]
    by_cases hba : isBlackAt flatGrid a
    · rw [if_pos hba]
    · rw [if_neg hba]
      by_cases hcond : acc.getD a "" ≠ "" ∧ acc.getD a "" ≠ sol.getD a ""
      · rw [if_pos hcond]
        refine getD_set_other acc "" ?_
        intro he
        rw [he, hj] at hba
        exact hba rfl
      · rw [if_neg hcond]

/-- Cells at BLOCKED positions survive a `revealCurrent` scope walk. -/
theorem foldl_revealStep_blocked (flatGrid sol : List String) :
    ∀ (scope : List Nat) (acc : List String) (j : Nat), isBlackAt flatGrid j = true →
      (scope.foldl (revealStep flatGrid sol) acc).getD j "" = acc.getD j "" := by
  intro scope
  induction scope with
  | nil => intro acc j hj; rfl
  | cons a t ih =>
    intro acc j hj
    rw [List.foldl_cons, ih _ j hj]
    rw [revealStep]
    by_cases hba : isBlackAt flatGrid a
    · rw [if_pos hba]
    · rw [if_neg hba]
      refine getD_set_other acc _ ?_
      intro he
      rw [he, hj] at hba
      exact hba rfl

/-- After a `revealCurrent` scope walk every in-range OPEN cell of the scope
holds its solution letter, and everything else is untouched. -/
theorem foldl_revealStep_getD (flatGrid sol : List String) :
    ∀ (scope : List Nat) (acc : List String) (j : Nat), j < acc.length →
      (scope.foldl (revealStep flatGrid sol) acc).getD j "" =
        (if j ∈ scope ∧ isBlackAt flatGrid j = false then sol.getD j ""
         else acc.getD j "") := by
  intro scope
  induction scope with
  | nil =>
    intro acc j hj
    rw [List.foldl_nil, if_neg (by intro hc; simp at hc)]
  | cons a t ih =>
    intro acc j hj
    rw [List.foldl_cons, ih (revealStep flatGrid sol acc a) j (by rw [revealStep_length]; exact hj)]
    by_cases hjt : j ∈ t ∧ isBlackAt flatGrid j = false
    · rw [if_pos hjt, if_pos ⟨List.mem_cons_of_mem a hjt.1, hjt.2⟩]
    · rw [if_neg hjt]
      by_cases hb : isBlackAt flatGrid j = false
      · have hjnt : j ∉ t := fun hc => hjt ⟨hc, hb⟩
        by_cases hja : j = a
        · subst hja
          rw [if_pos ⟨List.mem_cons_self j t, hb⟩]
          rw [revealStep, if_neg (by rw [hb]; simp)]
          exact getD_set_same acc j (sol.getD j "") hj
        · rw [if_neg (by
            intro hc
            rcases List.mem_cons.mp hc.1 with h1 | h2
            · exact hja h1
            · exact hjnt h2)]
          rw [revealStep]
          by_cases hba : isBlackAt flatGrid a
          · rw [if_pos hba]
          · rw [if_neg hba]
            exact getD_set_other acc _ (fun he => hja he.symm)
      · have hb' : isBlackAt flatGrid j = true := by
          cases hx : isBlackAt flatGrid j
          · exact absurd hx hb
          · rfl
        rw [if_neg (fun hc => hb hc.2)]
        rw [revealStep]
        by_cases hba : isBlackAt flatGrid a
        · rw [if_pos hba]
        · rw [if_neg hba]
          refine getD_set_other acc _ ?_
          intro he
          rw [he, hb'] at hba
          exact hba rfl

/-- **C9.** With a reference solution present, `revealScope` applied to the
whole grid makes `isComplete()` true, and neither `checkScope` nor
`revealScope`, at either scope, changes the content of any BLOCKED position. -/
theorem c9_reveal_complete_check_blocked (W H : Nat) (flatGrid sol : List String)
    (st : EngState) (hlen : st.cells.length = W * H) :
    isComplete W H flatGrid (some sol)
        ((revealCurrent W H flatGrid (some sol) false st).cells) = true ∧
    (∀ (runOnly : Bool) (i : Nat), isBlackAt flatGrid i = true →
      (checkCurrent W H flatGrid (some sol) runOnly st).cells.getD i ""
          = st.cells.getD i "" ∧
      (revealCurrent W H flatGrid (some sol) runOnly st).cells.getD i ""
          = st.cells.getD i "") := by
  constructor
  · by_cases hz : st.cells.length = 0
    · -- empty grid: the scope is empty, and completeness is vacuous
      have hWH : W * H = 0 := by omega
      show (List.range (W * H)).all _ = true
      rw [hWH]
      rfl
    · have hnil : List.range st.cells.length ≠ [] := by
        intro hc
        rw [List.range_eq_nil] at hc
        exact hz hc
      have hscope : scopeOf W H flatGrid false st = List.range st.cells.length := rfl
      have hcells : (revealCurrent W H flatGrid (some sol) false st).cells =
          (List.range st.cells.length).foldl (revealStep flatGrid sol) st.cells := by
        show (if (scopeOf W H flatGrid false st).isEmpty then st
          else { st with cells := ((scopeOf W H flatGrid false st).foldl
            (revealStep flatGrid sol) st.cells) }).cells = _
        rw [hscope, if_neg (by rw [isEmpty_eq_false_of_ne_nil hnil]; simp)]
      show (List.range (W * H)).all _ = true
      rw [List.all_eq_true]
      intro i hi
      have hiWH : i < W * H := List.mem_range.mp hi
      by_cases hb : isBlackAt flatGrid i
      · simp [hb]
      · have hb' : isBlackAt flatGrid i = false := by
          cases hx : isBlackAt flatGrid i
          · rfl
          · exact absurd hx hb
        rw [hcells, foldl_revealStep_getD flatGrid sol (List.range st.cells.length)
          st.cells i (by omega)]
        rw [if_pos ⟨List.mem_range.mpr (by omega), hb'⟩]
        simp [hb']
  · intro runOnly i hb
    constructor
    · show (match some sol with
        | none => st
        | some s =>
          if (scopeOf W H flatGrid runOnly st).isEmpty then st
          else { st with cells := ((scopeOf W H flatGrid runOnly st).foldl
            (checkStep flatGrid s) st.cells) }).cells.getD i "" = _
      simp only []
      by_cases he : (scopeOf W H flatGrid runOnly st).isEmpty
      · rw [if_pos he]
      · rw [if_neg he]
        exact foldl_checkStep_blocked flatGrid sol _ st.cells i hb
    · show (match some sol with
        | none => st
        | some s =>
          if (scopeOf W H flatGrid runOnly st).isEmpty then st
          else { st with cells := ((scopeOf W H flatGrid runOnly st).foldl
            (revealStep flatGrid s) st.cells) }).cells.getD i "" = _
      simp only []
      by_cases he : (scopeOf W H flatGrid runOnly st).isEmpty
      · rw [if_pos he]
      · rw [if_neg he]
        exact foldl_revealStep_blocked flatGrid sol _ st.cells i hb

/-- Witness for C9 on the 1×5 grid: reveal-all completes the puzzle and the
BLOCKED cell 2 is untouched by check-all. -/
theorem c9_reveal_complete_check_blocked_witness :
    isComplete 5 1 ["A", "B", "#", "C", "D"] (some ["A", "B", "#", "C", "D"])
        ((revealCurrent 5 1 ["A", "B", "#", "C", "D"] (some ["A", "B", "#", "C", "D"]) false
          ⟨["", "", "#", "", ""], Dir.across, some 0⟩).cells) = true ∧
      (checkCurrent 5 1 ["A", "B", "#", "C", "D"] (some ["A", "B", "#", "C", "D"]) false
          ⟨["", "", "#", "", ""], Dir.across, some 0⟩).cells.getD 2 ""
        = (["", "", "#", "", ""] : List String).getD 2 "" :=
  ⟨(c9_reveal_complete_check_blocked 5 1 ["A", "B", "#", "C", "D"] ["A", "B", "#", "C", "D"]
      ⟨["", "", "#", "", ""], Dir.across, some 0⟩ (by decide)).1,
    ((c9_reveal_complete_check_blocked 5 1 ["A", "B", "#", "C", "D"] ["A", "B", "#", "C", "D"]
      ⟨["", "", "#", "", ""], Dir.across, some 0⟩ (by decide)).2 false 2 (by decide)).1⟩

/-! ### C10: the BLOCKED-marker invariant -/

/-- The solving-state invariant: the cells array has one entry per layout cell
and holds the `"#"` marker exactly at the layout's BLOCKED positions. -/
def cellsInv (W H : Nat) (flatGrid cells : List String) : Prop :=
  cells.length = W * H ∧
  ∀ i, i < W * H → (cells.getD i "" = "#" ↔ flatGrid.getD i "" = "#")

theorem isBlackAt_false_ne (grid : List String) (i : Nat)
    (h : isBlackAt grid i = false) : grid.getD i "" ≠ "#" := by
  rw [isBlackAt] at h
  exact beq_eq_false_iff_ne.mp h

theorem cellsInv_set (W H : Nat) (flatGrid : List String) {cells : List String}
    (hinv : cellsInv W H flatGrid cells) (i : Nat) (v : String)
    (hv : i < W * H → v ≠ "#")
    (hopen : i < W * H → flatGrid.getD i "" ≠ "#") :
    cellsInv W H flatGrid (cells.set i v) := by
  obtain ⟨hl, hiff⟩ := hinv
  by_cases hiW : i < W * H
  · refine ⟨by rw [List.length_set]; exact hl, ?_⟩
    intro j hj
    by_cases hij : i = j
    · subst hij
      rw [getD_set_same cells i v (by omega)]
      constructor
      · intro hc; exact absurd hc (hv hiW)
      · intro hc; exact absurd hc (hopen hiW)
    · rw [getD_set_other cells v hij]; exact hiff j hj
  · rw [List.set_eq_of_length_le (by omega)]
    exact ⟨hl, hiff⟩

theorem checkStep_inv (W H : Nat) (flatGrid sol : List String) {cells : List String}
    (hinv : cellsInv W H flatGrid cells) (i : Nat) :
    cellsInv W H flatGrid (checkStep flatGrid sol cells i) := by
  rw [checkStep]
  by_cases hb : isBlackAt flatGrid i
  · rw [if_pos hb]; exact hinv
  · rw [if_neg hb]
    by_cases hc : cells.getD i "" ≠ "" ∧ cells.getD i "" ≠ sol.getD i ""
    · rw [if_pos hc]
      refine cellsInv_set W H flatGrid hinv i "" (fun _ => by decide) (fun _ => ?_)
      have hb' : isBlackAt flatGrid i = false := by
        cases hx : isBlackAt flatGrid i
        · rfl
        · exact absurd hx hb
      exact isBlackAt_false_ne flatGrid i hb'
    · rw [if_neg hc]; exact hinv

theorem revealStep_inv (W H : Nat) (flatGrid sol : List String)
    (hsol : ∀ i, i < W * H → flatGrid.getD i "" ≠ "#" → sol.getD i "" ≠ "#")
    {cells : List String} (hinv : cellsInv W H flatGrid cells) (i : Nat) :
    cellsInv W H flatGrid (revealStep flatGrid sol cells i) := by
  rw [revealStep]
  by_cases hb : isBlackAt flatGrid i
  · rw [if_pos hb]; exact hinv
  · rw [if_neg hb]
    have hb' : isBlackAt flatGrid i = false := by
      cases hx : isBlackAt flatGrid i
      · rfl
      · exact absurd hx hb
    have hopen := isBlackAt_false_ne flatGrid i hb'
    exact cellsInv_set W H flatGrid hinv i _ (fun hiW => hsol i hiW hopen) (fun _ => hopen)

theorem foldl_checkStep_inv (W H : Nat) (flatGrid sol : List String) :
    ∀ (scope : List Nat) {cells : List String}, cellsInv W H flatGrid cells →
      cellsInv W H flatGrid (scope.foldl (checkStep flatGrid sol) cells) := by
  intro scope
  induction scope with
  | nil => intro cells hinv; exact hinv
  | cons a t ih =>
    intro cells hinv
    rw [List.foldl_cons]
    exact ih (checkStep_inv W H flatGrid sol hinv a)

theorem foldl_revealStep_inv (W H : Nat) (flatGrid sol : List String)
    (hsol : ∀ i, i < W * H → flatGrid.getD i "" ≠ "#" → sol.getD i "" ≠ "#") :
    ∀ (scope : List Nat) {cells : List String}, cellsInv W H flatGrid cells →
      cellsInv W H flatGrid (scope.foldl (revealStep flatGrid sol) cells) := by
  intro scope
  induction scope with
  | nil => intro cells hinv; exact hinv
  | cons a t ih =>
    intro cells hinv
    rw [List.foldl_cons]
    exact ih (revealStep_inv W H flatGrid sol hsol hinv a)

theorem jumpCore_cells (flatGrid : List String) (W H : Nat) (forward : Bool)
    (m : List (Nat × List Nat)) (st : EngState) :
    (jumpCore flatGrid W H forward m st).cells = st.cells := by
  unfold jumpCore
  split
  · rfl
  · split
    · rfl
    · split <;> rfl

theorem jumpToNextRun_cells (W H : Nat) (flatGrid : List String) (forward : Bool)
    (st : EngState) :
    (jumpToNextRun W H flatGrid forward st).cells = st.cells :=
  jumpCore_cells flatGrid W H forward _ st

theorem handleKey_inv (W H : Nat) (flatGrid : List String) (key : String) (shift : Bool)
    (st : EngState) (hinv : cellsInv W H flatGrid st.cells) :
    cellsInv W H flatGrid (handleKey W H flatGrid key shift st).cells := by
  unfold handleKey
  split
  · exact hinv
  · rename_i hhandled
    split
    · exact hinv
    · rename_i f hfocus
      split
      · -- arrows: cells unchanged in every branch
        repeat' split
        all_goals try dsimp only []
        all_goals repeat' split
        all_goals exact hinv
      · split
        · exact hinv
        · split
          · rw [jumpToNextRun_cells]; exact hinv
          · split
            · rw [jumpToNextRun_cells]; exact hinv
            · split
              · -- Backspace/Delete
                show cellsInv W H flatGrid
                  (if st.cells.getD f "" ≠ "" ∧ st.cells.getD f "" ≠ "#" then st.cells.set f ""
                   else
                     match (runAt W H flatGrid f st.dir).get?
                         (Int.toNat (max 0 (jsIndexOf (runAt W H flatGrid f st.dir) f - 1))) with
                     | some b => st.cells.set b ""
                     | none => st.cells)
                by_cases hc : st.cells.getD f "" ≠ "" ∧ st.cells.getD f "" ≠ "#"
                · rw [if_pos hc]
                  refine cellsInv_set W H flatGrid hinv f "" (fun _ => by decide)
                    (fun hfW => ?_)
                  intro hgb
                  exact hc.2 ((hinv.2 f hfW).mpr hgb)
                · rw [if_neg hc]
                  cases hbk : (runAt W H flatGrid f st.dir).get?
                      (Int.toNat (max 0 (jsIndexOf (runAt W H flatGrid f st.dir) f - 1))) with
                  | none => exact hinv
                  | some b =>
                    have hbmem : b ∈ runAt W H flatGrid f st.dir := List.get?_mem hbk
                    have hbopen := mem_runAt_open W H flatGrid f st.dir b hbmem
                    exact cellsInv_set W H flatGrid hinv b "" (fun _ => by decide)
                      (fun _ => isBlackAt_false_ne flatGrid b hbopen)
              · -- single letter
                rename_i harrow hspace htab hent hbd
                have hh : handledKey key = true := not_not.mp hhandled
                have halpha : isAlphaKey key = true := by
                  have h1 : (key == " ") = false := Bool.eq_false_iff.mpr hspace
                  have h2 : (key == "Tab") = false := Bool.eq_false_iff.mpr htab
                  have h3 : (key == "Enter") = false := Bool.eq_false_iff.mpr hent
                  have h45 : (key == "Backspace" || key == "Delete") = false :=
                    Bool.eq_false_iff.mpr hbd
                  have h4 : (key == "Backspace") = false := by
                    cases hx : (key == "Backspace") with
                    | false => rfl
                    | true => rw [hx] at h45; simp at h45
                  have h5 : (key == "Delete") = false := by
                    cases hx : (key == "Delete") with
                    | false => rfl
                    | true => rw [hx] at h45; simp at h45
                  have h6 : startsWithArrow key = false := Bool.eq_false_iff.mpr harrow
                  rw [handledKey, h1, h2, h3, h4, h5, h6] at hh
                  simpa using hh
                show cellsInv W H flatGrid
                  (if st.cells.getD f "" == "#" then st.cells
                   else st.cells.set f (jsToUpper key))
                by_cases hc : st.cells.getD f "" == "#"
                · rw [if_pos hc]; exact hinv
                · rw [if_neg hc]
                  refine cellsInv_set W H flatGrid hinv f (jsToUpper key)
                    (fun _ => jsToUpper_ne_hash key halpha) (fun hfW => ?_)
                  intro hgb
                  have := (hinv.2 f hfW).mpr hgb
                  rw [this] at hc
                  simp at hc

theorem checkCurrent_inv (W H : Nat) (flatGrid sol : List String) (runOnly : Bool)
    (st : EngState) (hinv : cellsInv W H flatGrid st.cells) :
    cellsInv W H flatGrid (checkCurrent W H flatGrid (some sol) runOnly st).cells := by
  show cellsInv W H flatGrid
    ((if (scopeOf W H flatGrid runOnly st).isEmpty then st
      else { st with cells := ((scopeOf W H flatGrid runOnly st).foldl
        (checkStep flatGrid sol) st.cells) }).cells)
  by_cases he : (scopeOf W H flatGrid runOnly st).isEmpty
  · rw [if_pos he]; exact hinv
  · rw [if_neg he]
    exact foldl_checkStep_inv W H flatGrid sol _ hinv

theorem revealCurrent_inv (W H : Nat) (flatGrid sol : List String)
    (hsol : ∀ i, i < W * H → flatGrid.getD i "" ≠ "#" → sol.getD i "" ≠ "#")
    (runOnly : Bool) (st : EngState) (hinv : cellsInv W H flatGrid st.cells) :
    cellsInv W H flatGrid (revealCurrent W H flatGrid (some sol) runOnly st).cells := by
  show cellsInv W H flatGrid
    ((if (scopeOf W H flatGrid runOnly st).isEmpty then st
      else { st with cells := ((scopeOf W H flatGrid runOnly st).foldl
        (revealStep flatGrid sol) st.cells) }).cells)
  by_cases he : (scopeOf W H flatGrid runOnly st).isEmpty
  · rw [if_pos he]; exact hinv
  · rw [if_neg he]
    exact foldl_revealStep_inv W H flatGrid sol hsol _ hinv

theorem clearAll_inv (W H : Nat) (flatGrid : List String) (st : EngState)
    (hinv : cellsInv W H flatGrid st.cells) :
    cellsInv W H flatGrid (clearAll flatGrid st).cells := by
  obtain ⟨hl, _⟩ := hinv
  refine ⟨by rw [clearAll]; simpa using hl, ?_⟩
  intro i hi
  have hilen : i < st.cells.length := by omega
  have hgetD : (clearAll flatGrid st).cells.getD i "" =
      (if isBlackAt flatGrid i then "#" else "") := by
    show (st.cells.mapIdx fun i _ => if isBlackAt flatGrid i then "#" else "").getD i "" = _
    rw [List.getD_eq_getElem?_getD, List.getElem?_mapIdx]
    rw [List.getElem?_eq_getElem hilen]
    rfl
  rw [hgetD]
  by_cases hb : isBlackAt flatGrid i
  · rw [if_pos hb]
    have hgridb : flatGrid.getD i "" = "#" := by
      rw [isBlackAt] at hb
      exact beq_iff_eq.mp hb
    exact ⟨fun _ => hgridb, fun _ => rfl⟩
  · rw [if_neg hb]
    have hb' : isBlackAt flatGrid i = false := by
      cases hx : isBlackAt flatGrid i
      · rfl
      · exact absurd hx hb
    have hne := isBlackAt_false_ne flatGrid i hb'
    constructor
    · intro hc; exact absurd hc (by decide)
    · intro hc; exact absurd hc hne

/-- **C10.** The BLOCKED-marker invariant — cells hold `"#"` exactly at the
layout's BLOCKED positions — is preserved by every engine operation: any key
handled by `handleKey` (letter entry, backspace/delete, navigation),
`checkScope` and `revealScope` at either scope (for a solution that is
`"#"`-free on OPEN cells), and `clearAll`. -/
theorem c10_blocked_marker_invariant (W H : Nat) (flatGrid sol : List String)
    (st : EngState)
    (hsol : ∀ i, i < W * H → flatGrid.getD i "" ≠ "#" → sol.getD i "" ≠ "#")
    (hinv : cellsInv W H flatGrid st.cells) :
    (∀ (key : String) (shift : Bool),
      cellsInv W H flatGrid (handleKey W H flatGrid key shift st).cells) ∧
    (∀ runOnly : Bool,
      cellsInv W H flatGrid (checkCurrent W H flatGrid (some sol) runOnly st).cells) ∧
    (∀ runOnly : Bool,
      cellsInv W H flatGrid (revealCurrent W H flatGrid (some sol) runOnly st).cells) ∧
    cellsInv W H flatGrid (clearAll flatGrid st).cells :=
  ⟨fun key shift => handleKey_inv W H flatGrid key shift st hinv,
   fun runOnly => checkCurrent_inv W H flatGrid sol runOnly st hinv,
   fun runOnly => revealCurrent_inv W H flatGrid sol hsol runOnly st hinv,
   clearAll_inv W H flatGrid st hinv⟩

/-- Witness for C10: typing `x` into the focused open cell 0 of the 1×5 grid
preserves the invariant. -/
theorem c10_blocked_marker_invariant_witness :
    cellsInv 5 1 ["A", "B", "#", "C", "D"]
      (handleKey 5 1 ["A", "B", "#", "C", "D"] "x" false
        ⟨["", "", "#", "", ""], Dir.across, some 0⟩).cells :=
  (c10_blocked_marker_invariant 5 1 ["A", "B", "#", "C", "D"] ["A", "B", "#", "C", "D"]
    ⟨["", "", "#", "", ""], Dir.across, some 0⟩ (by decide) ⟨by decide, by decide⟩).1 "x" false

/-! ### Puzzle decoder (`puzToPuzzle` in src/src/App.jsx)

Bytes are `List Nat` (each `< 256` for real buffers); decoded text is a list
of Unicode code points.  `TextDecoder('utf-8', {fatal:false})` is embedded
with the WHATWG replacement-emitting algorithm (leading-BOM removal, which
never affects the replacement-character tests the source makes, is not
modelled) and `TextDecoder('windows-1252')` with the WHATWG single-byte
index, which is total on bytes. -/

/-- WHATWG UTF-8 decoder: handle a byte in the initial state.  Returns
(emitted code points, codepoint accumulator, bytes needed, lower boundary,
upper boundary). -/
def utf8Start (b : Nat) : List Nat × Nat × Nat × Nat × Nat :=
  if b ≤ 0x7F then ([b], 0, 0, 0x80, 0xBF)
  else if 0xC2 ≤ b ∧ b ≤ 0xDF then ([], b - 0xC0, 1, 0x80, 0xBF)
  else if b = 0xE0 then ([], 0, 2, 0xA0, 0xBF)
  else if b = 0xED then ([], 0xD, 2, 0x80, 0x9F)
  else if 0xE1 ≤ b ∧ b ≤ 0xEF then ([], b - 0xE0, 2, 0x80, 0xBF)
  else if b = 0xF0 then ([], 0, 3, 0x90, 0xBF)
  else if 0xF1 ≤ b ∧ b ≤ 0xF3 then ([], b - 0xF0, 3, 0x80, 0xBF)
  else if b = 0xF4 then ([], 4, 3, 0x80, 0x8F)
  else ([0xFFFD], 0, 0, 0x80, 0xBF)

/-- WHATWG UTF-8 decoder main loop (codepoint, bytes seen, bytes needed,
lower boundary, upper boundary); an invalid continuation byte emits U+FFFD
and reprocesses the byte in the initial state. -/
def utf8Go : List Nat → Nat → Nat → Nat → Nat → Nat → List Nat
  | [], _, _, needed, _, _ => if needed = 0 then [] else [0xFFFD]
  | b :: rest, cp, seen, needed, lo, hi =>
    if needed = 0 then
      let s := utf8Start b
      s.1 ++ utf8Go rest s.2.1 0 s.2.2.1 s.2.2.2.1 s.2.2.2.2
    else if lo ≤ b ∧ b ≤ hi then
      if seen + 1 = needed then (cp * 64 + (b - 0x80)) :: utf8Go rest 0 0 0 0x80 0xBF
      else utf8Go rest (cp * 64 + (b - 0x80)) (seen + 1) needed 0x80 0xBF
    else
      let s := utf8Start b
      0xFFFD :: (s.1 ++ utf8Go rest s.2.1 0 s.2.2.1 s.2.2.2.1 s.2.2.2.2)

/-- `new TextDecoder('utf-8', { fatal: false }).decode(view)`. -/
def utf8Decode (bs : List Nat) : List Nat :=
  utf8Go bs 0 0 0 0x80 0xBF

/-- The WHATWG windows-1252 index for bytes 0x80–0x9F. -/
def win1252Table : List Nat :=
  [0x20AC, 0x81, 0x201A, 0x0192, 0x201E, 0x2026, 0x2020, 0x2021,
   0x02C6, 0x2030, 0x0160, 0x2039, 0x0152, 0x8D, 0x017D, 0x8F,
   0x90, 0x2018, 0x2019, 0x201C, 0x201D, 0x2022, 0x2013, 0x2014,
   0x02DC, 0x2122, 0x0161, 0x203A, 0x0153, 0x9D, 0x017E, 0x0178]

def win1252Byte (b : Nat) : Nat :=
  if b < 0x80 then b
  else if b < 0xA0 then win1252Table.getD (b - 0x80) b
  else b

/-- `new TextDecoder('windows-1252').decode(view)`. -/
def win1252Decode (bs : List Nat) : List Nat :=
  bs.map win1252Byte

/-- JavaScript `string.length` (UTF-16 units) of a code-point list. -/
def utf16Len (cps : List Nat) : Nat :=
  (cps.map (fun c => if c < 0x10000 then 1 else 2)).sum

/-- The decode policy of `readCString`: UTF-8, falling back to windows-1252
on replacement characters; with replacements on both, the longer string wins
with ties to windows-1252 (`win.length >= utf.length ? win : utf`). -/
def decodeCString (view : List Nat) : List Nat :=
  if view = [] then []
  else
    if 0xFFFD ∈ utf8Decode view then
      if 0xFFFD ∈ win1252Decode view then
        if utf16Len (utf8Decode view) ≤ utf16Len (win1252Decode view) then win1252Decode view
        else utf8Decode view
      else win1252Decode view
    else utf8Decode view

/-- The byte run a `readCString` at offset `p` consumes
(`while (off < bytes.length && bytes[off] !== 0) off++`). -/
def cStringView (bytes : List Nat) (p : Nat) : List Nat :=
  (bytes.drop p).takeWhile (fun b => b ≠ 0)

/-- Offset just past the NUL that terminated the run (`off++`). -/
def cStringNext (bytes : List Nat) (p : Nat) : Nat :=
  p + (cStringView bytes p).length + 1

/-- `readCString()` starting at offset `p`. -/
def cStringAt (bytes : List Nat) (p : Nat) : List Nat :=
  decodeCString (cStringView bytes p)

/-- `for (let i = 0; i < clueCount; i++) cluesRaw.push(readCString())`. -/
def cluesFrom (bytes : List Nat) : Nat → Nat → List (List Nat)
  | 0, _ => []
  | k + 1, p => cStringAt bytes p :: cluesFrom bytes k (cStringNext bytes p)

/-- The offset after reading `k` NUL-terminated fields from `p`. -/
def cluesEnd (bytes : List Nat) : Nat → Nat → Nat
  | 0, p => p
  | k + 1, p => cluesEnd bytes k (cStringNext bytes p)

structure Clue where
  num : Nat
  text : List Nat
deriving DecidableEq, Repr

structure Clues where
  across : List Clue
  down : List Clue
deriving DecidableEq, Repr

structure Puzzle where
  title : List Nat
  author : List Nat
  width : Nat
  height : Nat
  grid : List String
  solution : List String
  clues : Clues
  notes : List Nat
deriving DecidableEq, Repr

/-- `W = bytes[0x2C]`. -/
def widthOf (bytes : List Nat) : Nat := bytes.getD 0x2C 0

/-- `H = bytes[0x2D]`. -/
def heightOf (bytes : List Nat) : Nat := bytes.getD 0x2D 0

/-- `clueCount = dv.getUint16(0x2E, true)`. -/
def clueCountOf (bytes : List Nat) : Nat :=
  bytes.getD 0x2E 0 + 256 * bytes.getD 0x2F 0

/-- `sol = Array.from(bytes.slice(0x34, 0x34 + N), b => String.fromCharCode(b))`. -/
def solOf (bytes : List Nat) : List String :=
  ((bytes.drop 0x34).take (widthOf bytes * heightOf bytes)).map
    (fun b => (Char.ofNat b).toString)

/-- `ch => (ch === '.' || ch === '#') ? '#' : ch`. -/
def normCell (ch : String) : String :=
  if ch = "." ∨ ch = "#" then "#" else ch

/-- The decoded flat grid, `sol.map(normCell)`. -/
def gridOf (bytes : List Nat) : List String :=
  (solOf bytes).map normCell

/-- Offset of the title field: `0x34` plus the two grids. -/
def titlePos (bytes : List Nat) : Nat :=
  0x34 + widthOf bytes * heightOf bytes + widthOf bytes * heightOf bytes

def authorPos (bytes : List Nat) : Nat := cStringNext bytes (titlePos bytes)

def copyrightPos (bytes : List Nat) : Nat := cStringNext bytes (authorPos bytes)

def cluesPos (bytes : List Nat) : Nat := cStringNext bytes (copyrightPos bytes)

/-- The `clueCount` NUL-terminated clue-text fields, in file order. -/
def clueFields (bytes : List Nat) : List (List Nat) :=
  cluesFrom bytes (clueCountOf bytes) (cluesPos bytes)

def notesPos (bytes : List Nat) : Nat :=
  cluesEnd bytes (clueCountOf bytes) (cluesPos bytes)

/-- The two order entries a cell contributes to the decoder's `order` list:
across start first, then down start. -/
def orderEntries (grid : List String) (W H i : Nat) : List (Bool × Nat) :=
  if grid.getD i "" = "#" then []
  else
    (if startA grid W i then
      [(true, ((numbers grid W H).getD i none).getD 0)] else []) ++
    (if startD grid W H i then
      [(false, ((numbers grid W H).getD i none).getD 0)] else [])

/-- The decoder's `order` list: scan row-major, across entry then down entry. -/
def clueOrder (grid : List String) (W H : Nat) : List (Bool × Nat) :=
  (List.range (W * H)).flatMap (orderEntries grid W H)

/-- The decoder's assignment loop: `text = cluesRaw[idx++] || ''`, pushed to
the across or down list. -/
def assignClues (raw : List (List Nat)) : List (Bool × Nat) → Nat → List Clue × List Clue
  | [], _ => ([], [])
  | (d, n) :: rest, idx =>
    let p := assignClues raw rest (idx + 1)
    if d then (⟨n, raw.getD idx []⟩ :: p.1, p.2)
    else (p.1, ⟨n, raw.getD idx []⟩ :: p.2)

/-- `asRows`: split a flat cell array into row strings. -/
def asRows (arr : List String) (W H : Nat) : List String :=
  (List.range H).map (fun r => String.join ((arr.drop (r * W)).take W))

def strCodes (s : String) : List Nat := s.data.map Char.toNat

/-- `puzToPuzzle(arrayBuffer)`.  The only operation that can throw is
`dv.getUint16(0x2E, true)`, which raises a RangeError when the buffer is
shorter than 0x30 bytes; that failure is the `none` case.  Every slice and
string read clamps, exactly as `Uint8Array.slice`/`subarray` do. -/
def puzToPuzzle (bytes : List Nat) : Option Puzzle :=
  if bytes.length < 0x30 then none
  else
    some {
      title := if cStringAt bytes (titlePos bytes) = [] then strCodes "Untitled"
        else cStringAt bytes (titlePos bytes),
      author := if cStringAt bytes (authorPos bytes) = [] then strCodes "Unknown"
        else cStringAt bytes (authorPos bytes),
      width := widthOf bytes,
      height := heightOf bytes,
      grid := asRows (gridOf bytes) (widthOf bytes) (heightOf bytes),
      solution := asRows ((solOf bytes).map normCell) (widthOf bytes) (heightOf bytes),
      clues := ⟨(assignClues (clueFields bytes)
          (clueOrder (gridOf bytes) (widthOf bytes) (heightOf bytes)) 0).1,
        (assignClues (clueFields bytes)
          (clueOrder (gridOf bytes) (widthOf bytes) (heightOf bytes)) 0).2⟩,
      notes := if notesPos bytes < bytes.length then cStringAt bytes (notesPos bytes)
        else [] }

/-! ### C2: clue-text assignment order -/

/-- The clue-text assignment as the spec words it: scan the decoded grid
row-major with a cursor into the clue fields; at every cell that starts an
across run consume the next unused field for that across number, then, if the
cell also starts a down run, consume the next field for down. -/
def clueAssignSpecGo (grid : List String) (W H : Nat) (raw : List (List Nat)) :
    List Nat → Nat → List Clue × List Clue
  | [], _ => ([], [])
  | i :: rest, k =>
    if grid.getD i "" = "#" then clueAssignSpecGo grid W H raw rest k
    else if startA grid W i then
      if startD grid W H i then
        (⟨((numbers grid W H).getD i none).getD 0, raw.getD k []⟩ ::
            (clueAssignSpecGo grid W H raw rest (k + 2)).1,
         ⟨((numbers grid W H).getD i none).getD 0, raw.getD (k + 1) []⟩ ::
            (clueAssignSpecGo grid W H raw rest (k + 2)).2)
      else
        (⟨((numbers grid W H).getD i none).getD 0, raw.getD k []⟩ ::
            (clueAssignSpecGo grid W H raw rest (k + 1)).1,
         (clueAssignSpecGo grid W H raw rest (k + 1)).2)
    else if startD grid W H i then
      ((clueAssignSpecGo grid W H raw rest (k + 1)).1,
       ⟨((numbers grid W H).getD i none).getD 0, raw.getD k []⟩ ::
          (clueAssignSpecGo grid W H raw rest (k + 1)).2)
    else clueAssignSpecGo grid W H raw rest k

/-- Interleaved cell-by-cell consumption over the whole grid. -/
def clueAssignSpec (grid : List String) (W H : Nat) (raw : List (List Nat)) :
    List Clue × List Clue :=
  clueAssignSpecGo grid W H raw (List.range (W * H)) 0

theorem assignClues_append (raw : List (List Nat)) :
    ∀ (xs ys : List (Bool × Nat)) (k : Nat),
      assignClues raw (xs ++ ys) k =
        ((assignClues raw xs k).1 ++ (assignClues raw ys (k + xs.length)).1,
         (assignClues raw xs k).2 ++ (assignClues raw ys (k + xs.length)).2) := by
  intro xs
  induction xs with
  | nil =>
    intro ys k
    simp [assignClues]
  | cons a xs ih =>
    intro ys k
    obtain ⟨d, n⟩ := a
    rw [List.cons_append]
    show (let p := assignClues raw (xs ++ ys) (k + 1)
      if d then (⟨n, raw.getD k []⟩ :: p.1, p.2)
      else (p.1, ⟨n, raw.getD k []⟩ :: p.2)) = _
    rw [ih ys (k + 1)]
    show (if d then _ else _) = _
    have hlen : k + 1 + xs.length = k + (xs.length + 1) := by omega
    cases d with
    | true =>
      rw [if_pos rfl]
      show _ = ((assignClues raw ((true, n) :: xs) k).1 ++ _,
        (assignClues raw ((true, n) :: xs) k).2 ++ _)
      show _ = ((⟨n, raw.getD k []⟩ :: (assignClues raw xs (k + 1)).1) ++ _,
        (assignClues raw xs (k + 1)).2 ++ _)
      rw [hlen]
      rfl
    | false =>
      rw [if_neg (by simp)]
      show _ = ((assignClues raw ((false, n) :: xs) k).1 ++ _,
        (assignClues raw ((false, n) :: xs) k).2 ++ _)
      show _ = ((assignClues raw xs (k + 1)).1 ++ _,
        (⟨n, raw.getD k []⟩ :: (assignClues raw xs (k + 1)).2) ++ _)
      rw [hlen]
      rfl

/-- The decoder's order-then-assign pipeline equals the spec's interleaved
cell-by-cell consumption, for any cell scan and cursor. -/
theorem assignClues_eq_spec (grid : List String) (W H : Nat) (raw : List (List Nat)) :
    ∀ (cells : List Nat) (k : Nat),
      assignClues raw (cells.flatMap (orderEntries grid W H)) k =
        clueAssignSpecGo grid W H raw cells k := by
  intro cells
  induction cells with
  | nil => intro k; rfl
  | cons i rest ih =>
    intro k
    rw [List.flatMap_cons, assignClues_append raw (orderEntries grid W H i)]
    by_cases hb : grid.getD i "" = "#"
    · have hoe : orderEntries grid W H i = [] := by rw [orderEntries, if_pos hb]
      rw [clueAssignSpecGo, if_pos hb, hoe, ← ih k]
      simp [assignClues]
    · rw [clueAssignSpecGo, if_neg hb]
      by_cases hA : startA grid W i
      · by_cases hD : startD grid W H i
        · have hoe : orderEntries grid W H i =
              [(true, ((numbers grid W H).getD i none).getD 0),
               (false, ((numbers grid W H).getD i none).getD 0)] := by
            rw [orderEntries, if_neg hb, if_pos hA, if_pos hD]
            rfl
          rw [if_pos hA, if_pos hD, hoe, ← ih (k + 2)]
          rfl
        · have hoe : orderEntries grid W H i =
              [(true, ((numbers grid W H).getD i none).getD 0)] := by
            rw [orderEntries, if_neg hb, if_pos hA, if_neg hD]
            rfl
          rw [if_pos hA, if_neg hD, hoe, ← ih (k + 1)]
          rfl
      · by_cases hD : startD grid W H i
        · have hoe : orderEntries grid W H i =
              [(false, ((numbers grid W H).getD i none).getD 0)] := by
            rw [orderEntries, if_neg hb, if_neg hA, if_pos hD]
            rfl
          rw [if_neg hA, if_pos hD, hoe, ← ih (k + 1)]
          rfl
        · have hoe : orderEntries grid W H i = [] := by
            rw [orderEntries, if_neg hb, if_neg hA, if_neg hD]
            rfl
          rw [if_neg hA, if_neg hD, hoe, ← ih k]
          simp [assignClues]

/-- **C2.** For every successfully decoded puzzle file, the decoder assigns
the i-th NUL-terminated clue-text field to the i-th entry of the sequence
obtained by scanning the decoded grid row-major and emitting, per cell, its
across run start first and then its down run start: the produced clue lists
equal the spec's interleaved cell-by-cell consumption of the fields. -/
theorem c2_clue_interleaving (bytes : List Nat) (puz : Puzzle)
    (h : puzToPuzzle bytes = some puz) :
    puz.clues.across = (clueAssignSpec (gridOf bytes) (widthOf bytes) (heightOf bytes)
        (clueFields bytes)).1 ∧
    puz.clues.down = (clueAssignSpec (gridOf bytes) (widthOf bytes) (heightOf bytes)
        (clueFields bytes)).2 := by
  rw [puzToPuzzle] at h
  by_cases hlen : bytes.length < 0x30
  · rw [if_pos hlen] at h
    exact absurd h (by simp)
  · rw [if_neg hlen] at h
    have hpz := Option.some.inj h
    have hmain := assignClues_eq_spec (gridOf bytes) (widthOf bytes) (heightOf bytes)
      (clueFields bytes) (List.range (widthOf bytes * heightOf bytes)) 0
    constructor
    · rw [← hpz]
      show (assignClues (clueFields bytes)
        (clueOrder (gridOf bytes) (widthOf bytes) (heightOf bytes)) 0).1 = _
      rw [clueOrder, hmain]
      rfl
    · rw [← hpz]
      show (assignClues (clueFields bytes)
        (clueOrder (gridOf bytes) (widthOf bytes) (heightOf bytes)) 0).2 = _
      rw [clueOrder, hmain]
      rfl

/-- A 2×1 sample file: header, grid `AB`, title `T`, one clue `C`. -/
def c2ExampleBytes : List Nat :=
  List.replicate 44 0 ++ [2, 1, 1, 0] ++ [0, 0, 0, 0] ++ [65, 66] ++ [0, 0] ++
    [84, 0] ++ [0] ++ [0] ++ [67, 0]

def blankPuzzle : Puzzle := ⟨[], [], 0, 0, [], [], ⟨[], []⟩, []⟩

/-- Witness for C2 on the 2×1 sample file. -/
theorem c2_clue_interleaving_witness :
    ((puzToPuzzle c2ExampleBytes).getD blankPuzzle).clues.across
      = (clueAssignSpec (gridOf c2ExampleBytes) (widthOf c2ExampleBytes)
          (heightOf c2ExampleBytes) (clueFields c2ExampleBytes)).1 :=
  (c2_clue_interleaving c2ExampleBytes ((puzToPuzzle c2ExampleBytes).getD blankPuzzle)
    (by decide)).1

/-! ### C6: decode failure condition -/

/-- **C6 counterexample.** A 48-byte buffer is too short to contain even the
fixed-size header through offset 0x34, yet `puzToPuzzle` succeeds on it: the
only throwing read is `dv.getUint16(0x2E)`, and every other access clamps. -/
theorem c6_decode_length_counterexample :
    (puzToPuzzle (List.replicate 48 0)).isSome = true ∧ 48 < 0x34 := by
  constructor
  · decide
  · decide

/-- **C6 amended.** `decode(bytes)` fails iff the buffer is too short to read
the two-byte clue count at offset 0x2E (length < 0x30); truncated grid
payloads or missing text sections are not detected and still produce a
Puzzle. -/
theorem c6_decode_length_amended (bytes : List Nat) :
    (puzToPuzzle bytes).isSome = true ↔ 0x30 ≤ bytes.length := by
  rw [puzToPuzzle]
  by_cases hlen : bytes.length < 0x30
  · rw [if_pos hlen]
    simp
    omega
  · rw [if_neg hlen]
    simp
    omega

/-! ### C7: text decoding policy -/

theorem win1252Byte_ne_repl (b : Nat) (hb : b < 256) : win1252Byte b ≠ 0xFFFD := by
  rw [win1252Byte]
  by_cases h1 : b < 0x80
  · rw [if_pos h1]; omega
  · rw [if_neg h1]
    by_cases h2 : b < 0xA0
    · rw [if_pos h2]
      interval_cases b <;> decide
    · rw [if_neg h2]; omega

/-- The WHATWG windows-1252 decoder is total on bytes: it never emits a
replacement character. -/
theorem win1252_no_repl (view : List Nat) (hb : ∀ b ∈ view, b < 256) :
    0xFFFD ∉ win1252Decode view := by
  intro hmem
  rw [win1252Decode] at hmem
  rcases List.mem_map.mp hmem with ⟨b, hbv, hbe⟩
  exact win1252Byte_ne_repl b (hb b hbv) hbe

/-- **C7.** The `readCString` decode policy: UTF-8 when that decoding contains
no replacement character; otherwise windows-1252 when that contains none; and
were both to contain replacement characters, the decoding with fewer
replacement characters, windows-1252 on a tie.  (The third clause is vacuous:
windows-1252 decodes every byte.) -/
theorem c7_decode_policy (view : List Nat) (hb : ∀ b ∈ view, b < 256) :
    (0xFFFD ∉ utf8Decode view → decodeCString view = utf8Decode view) ∧
    (0xFFFD ∈ utf8Decode view → 0xFFFD ∉ win1252Decode view →
      decodeCString view = win1252Decode view) ∧
    (0xFFFD ∈ utf8Decode view → 0xFFFD ∈ win1252Decode view →
      decodeCString view =
        (if (win1252Decode view).count 0xFFFD < (utf8Decode view).count 0xFFFD then
          win1252Decode view
         else if (utf8Decode view).count 0xFFFD < (win1252Decode view).count 0xFFFD then
          utf8Decode view
         else win1252Decode view)) := by
  refine ⟨?_, ?_, ?_⟩
  · intro hn
    rw [decodeCString]
    by_cases hv : view = []
    · rw [if_pos hv]
      subst hv
      rfl
    · rw [if_neg hv, if_neg hn]
  · intro h1 h2
    have hv : view ≠ [] := by
      intro hc
      subst hc
      simp [utf8Decode, utf8Go] at h1
    rw [decodeCString, if_neg hv, if_pos h1, if_neg h2]
  · intro h1 h2
    exact absurd h2 (win1252_no_repl view hb)

/-- Witness for C7: the ASCII byte run `[0x41]` decodes as UTF-8. -/
theorem c7_decode_policy_witness :
    decodeCString [0x41] = utf8Decode [0x41] :=
  (c7_decode_policy [0x41] (by decide)).1 (by decide)

end Cryptic
